import Mathlib

/-!
Shallow embedding of the transfer core of the flickr-to-google-cli repository.

The embedded code:
* `GooglePhotosService.addPhotosToAlbum` / `addBatchOfPhotosToAlbum`
  (src/services/GooglePhotosService.ts): spread-of-`Set` deduplication and
  windows of 50 ids per membership-mutation request.
* `FlickrToGoogleTransfer.transferAlbum` / `processPhotoBatch` /
  `createGoogleDescription` / `transferAlbums` / `getAllJobs` / `getJob`
  (src/transfer/FlickrToGoogleTransfer.ts, job-tracking configuration with the
  dry-run guard on album creation and the four-way membership branch).
* `FlickrService.getAlbumDetails` (bulk-export reader, src/services/FlickrService.ts).

External collaborators (the Google Photos REST endpoints, the filesystem,
the mime-types library, `Date.now()`) are modelled by an `Env` of pure
oracles; every observable action is recorded in an explicit `Event` trace and
every JavaScript exception is an `Except.error` value.  Awaited promises are
sequential composition, matching the single-threaded await chain of the code.
-/

namespace FlickrToGoogle

/-- Photo record of the source catalog (src/types: `FlickrPhoto`).  Only the
fields the embedded operations read are carried; source-only attributes that
no embedded code path reads (tags, dimensions, secret/server/farm, dates) are
omitted. -/
structure FlickrPhoto where
  id : String
  title : String
  description : String
  url : String
deriving DecidableEq, Repr

/-- Album record of the source catalog (src/types: `FlickrAlbum`). -/
structure FlickrAlbum where
  id : String
  title : String
  description : String
  photoCount : Nat
  photos : List FlickrPhoto
deriving DecidableEq, Repr

/-- Destination album (src/types: `GoogleAlbum`). -/
structure GoogleAlbum where
  id : String
  title : String
  mediaItemsCount : Nat
  isWriteable : Bool
deriving DecidableEq, Repr

/-- The status union of `TransferJob` (src/types). -/
inductive JobStatus where
  | pending
  | in_progress
  | completed
  | failed
deriving DecidableEq, Repr

/-- Persisted job record (src/types: `TransferJob`).  `Date` values are
epoch-millisecond naturals: only their relative order and presence matter to
the embedded code. -/
structure TransferJob where
  id : String
  status : JobStatus
  albumId : String
  albumTitle : String
  totalPhotos : Nat
  processedPhotos : Nat
  startTime : Nat
  endTime : Option Nat := none
  error : Option String := none
deriving DecidableEq, Repr

/-- Options of the transfer command (src/types: `TransferOptions`).
`batchSize = 0` plays the role of the absent / falsy JavaScript value, which
the code replaces by 10 via `options.batchSize || 10`. -/
structure TransferOptions where
  albumId : Option String := none
  dryRun : Bool := false
  batchSize : Nat := 0
deriving DecidableEq, Repr

/-- Observable actions of one run, in program order.  `addPhotosToAlbumCall`
marks an invocation of `GooglePhotosService.addPhotosToAlbum` with the raw id
list handed over by the orchestrator; `batchAddCall` marks one actual
membership-mutation request (`albums/{id}:batchAddMediaItems`, written here
without braces) carrying one window of at most 50 ids. -/
inductive Event where
  | createAlbumCall (title : String)
  | downloadCall (photoId : String)
  | uploadCall (filename : String) (description : String)
  | addPhotosToAlbumCall (albumId : String) (photoIds : List String)
  | batchAddCall (albumId : String) (photoIds : List String)
  | dryRunWouldTransfer (photoId : String)
  | saveJobCall (job : TransferJob)
deriving DecidableEq, Repr

/-- Pure oracles for the external collaborators: result of each network call,
the mime-types lookup table, and the clock read by `Date.now()` /
`new Date()` (its value is irrelevant to every claim, so a single instant is
carried). -/
structure Env where
  createAlbumResult : String → Except String GoogleAlbum
  downloadResult : FlickrPhoto → Except String String
  uploadResult : String → String → String → Except String String
  batchAddResult : String → List String → Except String Unit
  mimeLookup : String → Option String
  mimeExtension : String → Option String
  now : Nat

/-! ## GooglePhotosService: membership batching -/

/-- Worker for `jsSetDedup`: walks the list keeping the first occurrence of
each element, exactly like iterating a JavaScript `Set` built from the list. -/
def dedupAux (seen : List String) : List String → List String
  | [] => []
  | x :: xs => if x ∈ seen then dedupAux seen xs else x :: dedupAux (x :: seen) xs

/-- `[...new Set(photoIds)]` of `addPhotosToAlbum`: deduplication preserving
the order of first appearance (JavaScript `Set` iterates in insertion order). -/
def jsSetDedup (l : List String) : List String := dedupAux [] l

/-- The slicing loop `for (let i = 0; i < xs.length; i += n) xs.slice(i, i + n)`:
consecutive windows of size `n`, the last one possibly shorter.  For `n = 0`
(never reached by the code, whose window sizes are 50 and `batchSize || 10`)
the result is empty. -/
def chunksOf (n : Nat) : List α → List (List α)
  | [] => []
  | x :: xs =>
    if h : n = 0 then []
    else (x :: xs).take n :: chunksOf n ((x :: xs).drop n)
termination_by l => l.length
decreasing_by
  simp only [List.length_drop]
  exact Nat.sub_lt (Nat.succ_pos _) (Nat.pos_of_ne_zero h)

/-- The window loop of `addPhotosToAlbum`: submit each window through
`addBatchOfPhotosToAlbum`; a rejected request rethrows, so later windows are
not submitted. -/
def submitBatches (env : Env) (albumId : String) : List (List String) → Except String Unit × List Event
  | [] => (.ok (), [])
  | b :: bs =>
    match env.batchAddResult albumId b with
    | .error e => (.error e, [.batchAddCall albumId b])
    | .ok _ =>
      let rest := submitBatches env albumId bs
      (rest.1, .batchAddCall albumId b :: rest.2)

/-- `GooglePhotosService.addPhotosToAlbum`: dedup via `Set` spread, then
windows of `batchSize = 50`, submitted in order. -/
def addPhotosToAlbum (env : Env) (albumId : String) (photoIds : List String) : Except String Unit × List Event :=
  let r := submitBatches env albumId (chunksOf 50 (jsSetDedup photoIds))
  (r.1, .addPhotosToAlbumCall albumId photoIds :: r.2)

/-! ## FlickrToGoogleTransfer: photo-chunk pipeline -/

/-- The filename built for the upload:
`` `${photo.id}.${mime.extension(mime.lookup(photo.url) || 'image/jpeg') || 'jpg'}` ``. -/
def uploadFilename (env : Env) (photo : FlickrPhoto) : String :=
  photo.id ++ "." ++ (env.mimeExtension ((env.mimeLookup photo.url).getD "image/jpeg")).getD "jpg"

/-- The upload half of the live per-photo step:
`uploadPhoto(photoBuffer, filename, photo.description)`. -/
def uploadStep (env : Env) (photo : FlickrPhoto) (buffer : String) : Option String × List Event :=
  match env.uploadResult buffer (uploadFilename env photo) photo.description with
  | .error _ => (none, [.uploadCall (uploadFilename env photo) photo.description])
  | .ok googlePhotoId =>
    (some googlePhotoId, [.uploadCall (uploadFilename env photo) photo.description])

/-- Body of the `for (const photo of photos)` loop of `processPhotoBatch`.
The surrounding `try { ... } catch` is embedded by the `Option` result: a
download or upload rejection yields `none` (the warning is logged and the
photo skipped), so no exception can leave the per-photo loop.  Dry-run mode
synthesizes `dry_run_<photoId>` and logs one would-transfer line; live mode
downloads, then uploads with the derived mime type and filename. -/
def processSinglePhoto (env : Env) (dryRun : Bool) (photo : FlickrPhoto) : Option String × List Event :=
  if dryRun then
    (some ("dry_run_" ++ photo.id), [.dryRunWouldTransfer photo.id])
  else
    match env.downloadResult photo with
    | .error _ => (none, [.downloadCall photo.id])
    | .ok buffer =>
      ((uploadStep env photo buffer).1, .downloadCall photo.id :: (uploadStep env photo buffer).2)

/-- `FlickrToGoogleTransfer.processPhotoBatch`: sequential per-photo loop
accumulating the destination ids of the successful photos. -/
def processPhotoBatch (env : Env) (photos : List FlickrPhoto) (dryRun : Bool) : List String × List Event :=
  match photos with
  | [] => ([], [])
  | p :: rest =>
    let head := processSinglePhoto env dryRun p
    let tail := processPhotoBatch env rest dryRun
    (head.1.toList ++ tail.1, head.2 ++ tail.2)

/-- JavaScript truthiness of a `string | undefined` value: `undefined` and the
empty string are falsy, every other string is truthy. -/
def jsTruthy : Option String → Bool
  | none => false
  | some s => !s.isEmpty

/-- `FlickrToGoogleTransfer.createGoogleDescription`: concatenate the photo
name and description with a separator, falling back to whichever is populated. -/
def createGoogleDescription (flickrName flickrDescription : Option String) : String :=
  if jsTruthy flickrName && jsTruthy flickrDescription then
    flickrName.getD "" ++ " - " ++ flickrDescription.getD ""
  else if jsTruthy flickrName then
    flickrName.getD ""
  else if jsTruthy flickrDescription then
    flickrDescription.getD ""
  else
    ""

/-! ## FlickrToGoogleTransfer: per-album orchestration -/

/-- `options.batchSize || 10`: a falsy (absent / zero) batch size falls back
to 10, so the effective batch size is always positive. -/
def effBatchSize (batchSize : Nat) : Nat := if batchSize = 0 then 10 else batchSize

/-- The `TransferJob` created at the top of `transferAlbum`:
`job_<Date.now()>_<albumId>`, status pending, nothing processed yet. -/
def initialJob (env : Env) (album : FlickrAlbum) : TransferJob :=
  { id := "job_" ++ toString env.now ++ "_" ++ album.id
    status := .pending
    albumId := album.id
    albumTitle := album.title
    totalPhotos := album.photos.length
    processedPhotos := 0
    startTime := env.now }

/-- The batching loop of `transferAlbum`:
`for (let i = 0; i < album.photos.length; i += batchSize)` processes the slice
`photos.slice(i, i + batchSize)`, appends the returned ids, then saves the job
with `processedPhotos = min(i + batchSize, photos.length)` and status
in-progress.  Returns the accumulated ids, the job record after the loop, and
the trace. -/
def chunkLoop (env : Env) (dryRun : Bool) (batchSize : Nat) (job : TransferJob) (i : Nat) (photos : List FlickrPhoto) : List String × TransferJob × List Event :=
  if h : i < photos.length ∧ 0 < batchSize then
    let step := processPhotoBatch env ((photos.drop i).take batchSize) dryRun
    let job' := { job with processedPhotos := min (i + batchSize) photos.length, status := JobStatus.in_progress }
    let rest := chunkLoop env dryRun batchSize job' (i + batchSize) photos
    (step.1 ++ rest.1, rest.2.1, step.2 ++ Event.saveJobCall job' :: rest.2.2)
  else ([], job, [])
termination_by photos.length - i
decreasing_by exact Nat.sub_lt_sub_left h.1 (Nat.lt_add_of_pos_right h.2)

/-- The `catch` block of `transferAlbum`: mark the current job failed with the
error message and an end time, then rethrow. -/
def failJob (env : Env) (job : TransferJob) (e : String) : TransferJob :=
  { job with status := .failed, error := some e, endTime := some env.now }

/-- The completion step of `transferAlbum`: mark the current job completed
with an end time. -/
def completeJob (env : Env) (job : TransferJob) : TransferJob :=
  { job with status := .completed, endTime := some env.now }

/-- The four-way membership branch after the batch loop: dry-run only logs;
a missing destination album only logs an error; an empty id list only logs a
warning; otherwise `addPhotosToAlbum` is called. -/
def membershipStep (env : Env) (dryRun : Bool) (googleAlbum : Option GoogleAlbum) (photoIds : List String) : Except String Unit × List Event :=
  if dryRun then (.ok (), [])
  else
    match googleAlbum with
    | none => (.ok (), [])
    | some ga =>
      if photoIds.length = 0 then (.ok (), [])
      else addPhotosToAlbum env ga.id photoIds

/-- `FlickrToGoogleTransfer.transferAlbum` (job-tracking configuration):
save the pending job, create the destination album unless dry-run, run the
batch loop, run the membership branch, then save the completed job — or, if
album creation or the membership call rejected, save the failed job and
rethrow.  (The informational album-description warning and the dry-run log
lines other than the per-photo one are pure logging and leave no event.) -/
def transferAlbum (env : Env) (album : FlickrAlbum) (options : TransferOptions) : Except String Unit × List Event :=
  let job0 := initialJob env album
  let createStep : Except String (Option GoogleAlbum) × List Event :=
    if options.dryRun then (.ok none, [])
    else
      match env.createAlbumResult album.title with
      | .ok ga => (.ok (some ga), [.createAlbumCall album.title])
      | .error e => (.error e, [.createAlbumCall album.title])
  match createStep with
  | (.error e, ev) =>
    (.error e, Event.saveJobCall job0 :: ev ++ [Event.saveJobCall (failJob env job0 e)])
  | (.ok googleAlbum, ev) =>
    let loop := chunkLoop env options.dryRun (effBatchSize options.batchSize) job0 0 album.photos
    let memb := membershipStep env options.dryRun googleAlbum loop.1
    match memb.1 with
    | .ok _ =>
      (.ok (), Event.saveJobCall job0 :: ev ++ loop.2.2 ++ memb.2 ++ [Event.saveJobCall (completeJob env loop.2.1)])
    | .error e =>
      (.error e, Event.saveJobCall job0 :: ev ++ loop.2.2 ++ memb.2 ++ [Event.saveJobCall (failJob env loop.2.1 e)])

/-- The `for (const album of albums) await this.transferAlbum(album, options)`
loop of `transferAlbums`, over the already-resolved album list (the resolution
of `options.albumId` into one album or all albums happens before the loop and
is external input here).  A rejected album transfer rethrows, so the remaining
albums are not touched. -/
def transferAlbums (env : Env) (albums : List FlickrAlbum) (options : TransferOptions) : Except String Unit × List Event :=
  match albums with
  | [] => (.ok (), [])
  | a :: rest =>
    let r := transferAlbum env a options
    match r.1 with
    | .error e => (.error e, r.2)
    | .ok _ =>
      let rr := transferAlbums env rest options
      (rr.1, r.2 ++ rr.2)

/-- The job records saved during a trace, in save order. -/
def savedJobs (trace : List Event) : List TransferJob :=
  trace.filterMap fun e =>
    match e with
    | .saveJobCall j => some j
    | _ => none

/-- Spec-side mirror of the progress indices of the batching loop: the values
`min(i + batchSize, total)` saved after the successive chunks.  Used to state
what the loop records, independent of photo outcomes. -/
def chunkEnds (batchSize total i : Nat) : List Nat :=
  if h : i < total ∧ 0 < batchSize then
    min (i + batchSize) total :: chunkEnds batchSize total (i + batchSize)
  else []
termination_by total - i
decreasing_by exact Nat.sub_lt_sub_left h.1 (Nat.lt_add_of_pos_right h.2)

/-! ## Job store queries -/

/-- The persisted JSON shape of a job, as `fs.readJson` returns it:
`fs.writeJson` serialized the `Date` fields `startTime` / `endTime` to their
ISO strings, and `readJson` has no `Date` reviver, so they come back as plain
strings.  (The status string of the union round-trips losslessly and is kept
as `JobStatus`; the `Date` degradation is the part the code observes.) -/
structure StoredTransferJob where
  id : String
  status : JobStatus
  albumId : String
  albumTitle : String
  totalPhotos : Nat
  processedPhotos : Nat
  startTime : String
  endTime : Option String := none
  error : Option String := none
deriving DecidableEq, Repr

/-- The `fs.writeJson` / `fs.readJson` round trip of a job record: `Date`
fields become strings (rendered here from the epoch value), every other field
is unchanged. -/
def serializeJob (j : TransferJob) : StoredTransferJob :=
  { id := j.id, status := j.status, albumId := j.albumId, albumTitle := j.albumTitle,
    totalPhotos := j.totalPhotos, processedPhotos := j.processedPhotos,
    startTime := toString j.startTime, endTime := j.endTime.map toString, error := j.error }

/-- `getJob`: read `<jobStoragePath>/<jobId>.json`, `null` when unreadable.
The store directory is a finite association of file names to deserialized job
records. -/
def getJob (files : List (String × StoredTransferJob)) (jobId : String) : Option StoredTransferJob :=
  (files.find? fun f => f.1 == jobId ++ ".json").map Prod.snd

/-- `job.startTime.getTime()` on a deserialized record: `startTime` is a
plain string after the JSON round trip and strings have no `getTime` method,
so the call throws a `TypeError`. -/
def storedStartTimeGetTime (j : StoredTransferJob) : Except String Nat :=
  .error "TypeError: startTime.getTime is not a function"

/-- The sort comparator of `getAllJobs`,
`(a, b) => b.startTime.getTime() - a.startTime.getTime()`: it evaluates
`b.startTime.getTime()` first and therefore throws on its first invocation. -/
def jobComparator (a b : StoredTransferJob) : Except String Int :=
  match storedStartTimeGetTime b with
  | .error e => .error e
  | .ok tb =>
    match storedStartTimeGetTime a with
    | .error e => .error e
    | .ok ta => .ok ((tb : Int) - ta)

/-- Insertion step of `sortFallible`: place `x` before the first element the
comparator does not order after it; a thrown comparison aborts with that
exception. -/
def insertFallible (cmp : α → α → Except String Int) (x : α) : List α → Except String (List α)
  | [] => .ok [x]
  | y :: ys =>
    match cmp x y with
    | .error e => .error e
    | .ok c =>
      if c ≤ 0 then .ok (x :: y :: ys)
      else
        match insertFallible cmp x ys with
        | .error e => .error e
        | .ok l => .ok (y :: l)

/-- `Array.prototype.sort(cmp)` with a comparator that may throw, embedded as
an insertion sort over `Except`.  ECMAScript leaves the comparator call order
implementation-defined; the development relies only on what every comparison
sort satisfies: the comparator is never invoked on fewer than two elements
and is invoked at least once on two or more. -/
def sortFallible (cmp : α → α → Except String Int) : List α → Except String (List α)
  | [] => .ok []
  | x :: xs =>
    match sortFallible cmp xs with
    | .error e => .error e
    | .ok l => insertFallible cmp x l

/-- `file.endsWith('.json')`, as a character-level suffix test (the Lean
`String.endsWith` is byte-position based and is avoided only so that concrete
stores evaluate inside the kernel; the two agree on every string). -/
def isJsonFile (file : String) : Bool := ".json".data.isSuffixOf file.data

/-- `getAllJobs`: collect every `.json` file of the job directory and sort
with `jobComparator`.  The whole body sits inside
`try { ... } catch { return []; }`, so the `TypeError` thrown by the first
comparator invocation is swallowed and the empty list returned whenever two
or more jobs are stored. -/
def getAllJobs (files : List (String × StoredTransferJob)) : List StoredTransferJob :=
  match sortFallible jobComparator ((files.filter fun f => isJsonFile f.1).map Prod.snd) with
  | .ok jobs => jobs
  | .error _ => []

/-! ## FlickrService (bulk-export reader) -/

/-- One entry of the export's `albums.json` (`photo_count` arrives as a string
in the export; its `parseInt` image is carried directly since no embedded
operation inspects the digits). -/
structure AlbumData where
  id : String
  title : String
  description : String
  photo_count : Nat
  photos : List String
deriving DecidableEq, Repr

/-- The bulk-export directory: the parsed album listing, and for each photo id
the result of `getPhotoInfo` (`none` when `photo_<id>.json` is missing or
unreadable, which `getAlbumDetails` catches and skips). -/
structure FlickrExportStore where
  albums : List AlbumData
  photoMeta : String → Option FlickrPhoto

/-- `FlickrService.getAlbumDetails` (bulk-export reader): find the album in
the listing, drop the spurious photo id `'0'`, load each remaining photo's
metadata skipping unreadable ones, and return the album with the declared
`photo_count` taken unchanged from the export. -/
def getAlbumDetails (store : FlickrExportStore) (albumId : String) : Except String FlickrAlbum :=
  match store.albums.find? fun a => a.id == albumId with
  | none => .error ("Album " ++ albumId ++ " not found")
  | some albumData =>
    .ok { id := albumData.id
          title := albumData.title
          description := albumData.description
          photoCount := albumData.photo_count
          photos := (albumData.photos.filter fun photoId => photoId != "0").filterMap store.photoMeta }

/-! ## Concrete fixtures used by the witnesses -/

/-- A source photo with identifier `k`. -/
def photoK (k : String) : FlickrPhoto :=
  { id := k, title := "Photo " ++ k, description := "Desc " ++ k, url := "u" ++ k ++ ".jpg" }

/-- An environment where every external call succeeds. -/
def envOk : Env :=
  { createAlbumResult := fun t => .ok { id := "galbum", title := t, mediaItemsCount := 0, isWriteable := true }
    downloadResult := fun p => .ok ("bytes_" ++ p.id)
    uploadResult := fun _ f _ => .ok ("g_" ++ f)
    batchAddResult := fun _ _ => .ok ()
    mimeLookup := fun _ => none
    mimeExtension := fun _ => none
    now := 7 }

/-- Like `envOk` but the download of the photo with id `p2` rejects. -/
def envFailP2 : Env :=
  { envOk with downloadResult := fun p => if p.id == "p2" then .error "boom" else .ok ("bytes_" ++ p.id) }

/-- Like `envOk` but album creation rejects. -/
def envCreateFail : Env :=
  { envOk with createAlbumResult := fun _ => .error "create failed" }

/-- Like `envOk` but every upload rejects. -/
def envUploadFail : Env :=
  { envOk with uploadResult := fun _ _ _ => .error "upload failed" }

/-- Like `envOk` but every membership-mutation request rejects. -/
def envBatchAddFail : Env :=
  { envOk with batchAddResult := fun _ _ => .error "add failed" }

/-- The membership-mutation requests of a trace, with their payloads, in
submission order. -/
def batchSubmissions (trace : List Event) : List (String × List String) :=
  trace.filterMap fun e =>
    match e with
    | .batchAddCall a ids => some (a, ids)
    | _ => none

/-- The photo ids of the per-photo dry-run log lines of a trace, in order. -/
def wouldTransferIds (trace : List Event) : List String :=
  trace.filterMap fun e =>
    match e with
    | .dryRunWouldTransfer pid => some pid
    | _ => none

/-- The job record written after the chunk that starts at index `i`. -/
def chunkJob (job : TransferJob) (B i total : Nat) : TransferJob :=
  { job with processedPhotos := min (i + B) total, status := JobStatus.in_progress }

/-- The batching-loop instance run by `transferAlbum` for a given album and
option record. -/
def albumLoop (env : Env) (album : FlickrAlbum) (options : TransferOptions) : List String × TransferJob × List Event :=
  chunkLoop env options.dryRun (effBatchSize options.batchSize) (initialJob env album) 0 album.photos

/-- A concrete bulk-export store: one album declaring five photos, listing the
spurious id `0` plus three real ids, of which only id `1` has readable
metadata. -/
def storeW : FlickrExportStore :=
  { albums := [{ id := "a1", title := "Album 1", description := "d", photo_count := 5,
                 photos := ["0", "1", "2", "3"] }]
    photoMeta := fun pid => if pid == "1" then some (photoK "1") else none }

/-- Five concrete source photos. -/
def photosW : List FlickrPhoto :=
  [photoK "p1", photoK "p2", photoK "p3", photoK "p4", photoK "p5"]

/-- A concrete album with five photos. -/
def albumW : FlickrAlbum :=
  { id := "a1", title := "Album 1", description := "", photoCount := 5, photos := photosW }

/-- A concrete album with no photos. -/
def albumE : FlickrAlbum :=
  { id := "a2", title := "Album 2", description := "", photoCount := 0, photos := [] }

/-- A concrete album whose title makes `envC6` reject album creation. -/
def albumF : FlickrAlbum :=
  { id := "a3", title := "Fail Album", description := "", photoCount := 0, photos := [] }

/-- The pending job of `albumW` under `envOk`. -/
def jobW : TransferJob := initialJob envOk albumW

/-- A persisted job record that started at instant 1. -/
def storedJob1 : StoredTransferJob := serializeJob { jobW with startTime := 1 }

/-- A persisted job record that started at instant 2. -/
def storedJob2 : StoredTransferJob := serializeJob { jobW with startTime := 2 }

/-- Like `envOk` but album creation rejects exactly for the title of `albumF`. -/
def envC6 : Env :=
  { envOk with createAlbumResult := fun t =>
      if t == "Fail Album" then Except.error "create failed"
      else Except.ok ({ id := "galbum", title := t, mediaItemsCount := 0, isWriteable := true } : GoogleAlbum) }

/-! ## Lemmas about the deduplication of `addPhotosToAlbum` -/

theorem dedupAux_sublist (l : List String) : ∀ seen, List.Sublist (dedupAux seen l) l := by
  induction l with
  | nil => intro seen; simp [dedupAux]
  | cons x xs ih =>
    intro seen
    simp only [dedupAux]
    split
    · exact (ih seen).cons x
    · exact (ih (x :: seen)).cons₂ x

theorem mem_dedupAux (x : String) (l : List String) :
    ∀ seen, x ∈ dedupAux seen l ↔ x ∈ l ∧ x ∉ seen := by
  induction l with
  | nil => intro seen; simp [dedupAux]
  | cons y ys ih =>
    intro seen
    simp only [dedupAux]
    split
    · rename_i hy
      rw [ih seen, List.mem_cons]
      constructor
      · rintro ⟨hx, hns⟩
        exact ⟨Or.inr hx, hns⟩
      · rintro ⟨hx | hx, hns⟩
        · subst hx; exact absurd hy hns
        · exact ⟨hx, hns⟩
    · rename_i hy
      rw [List.mem_cons, ih (y :: seen)]
      simp only [List.mem_cons]
      constructor
      · rintro (rfl | ⟨hx, hns⟩)
        · exact ⟨Or.inl rfl, hy⟩
        · exact ⟨Or.inr hx, fun hs => hns (Or.inr hs)⟩
      · rintro ⟨rfl | hx, hns⟩
        · exact Or.inl rfl
        · by_cases hxy : x = y
          · exact Or.inl hxy
          · exact Or.inr ⟨hx, fun hs => hs.elim hxy hns⟩

theorem dedupAux_nodup (l : List String) : ∀ seen, (dedupAux seen l).Nodup := by
  induction l with
  | nil => intro seen; simp [dedupAux]
  | cons y ys ih =>
    intro seen
    simp only [dedupAux]
    split
    · exact ih seen
    · refine List.nodup_cons.mpr ⟨?_, ih (y :: seen)⟩
      intro hmem
      exact ((mem_dedupAux y ys (y :: seen)).1 hmem).2 (List.mem_cons_self y seen)

theorem dedupAux_congr (l : List String) :
    ∀ s₁ s₂, (∀ y, y ∈ s₁ ↔ y ∈ s₂) → dedupAux s₁ l = dedupAux s₂ l := by
  induction l with
  | nil => intros; rfl
  | cons y ys ih =>
    intro s₁ s₂ hs
    simp only [dedupAux]
    by_cases hy : y ∈ s₁
    · rw [if_pos hy, if_pos ((hs y).1 hy)]
      exact ih s₁ s₂ hs
    · rw [if_neg hy, if_neg fun h => hy ((hs y).2 h)]
      have : dedupAux (y :: s₁) ys = dedupAux (y :: s₂) ys := by
        refine ih _ _ fun z => ?_
        simp only [List.mem_cons]
        rw [hs z]
      rw [this]

theorem dedupAux_filter (a : String) (l : List String) :
    ∀ seen, dedupAux (a :: seen) l = dedupAux seen (l.filter fun x => x != a) := by
  induction l with
  | nil => intro seen; rfl
  | cons y ys ih =>
    intro seen
    by_cases hya : y = a
    · subst hya
      have hf : (y :: ys).filter (fun x => x != y) = ys.filter fun x => x != y := by
        simp [List.filter_cons]
      rw [hf, ← ih seen]
      simp [dedupAux]
    · have hf : (y :: ys).filter (fun x => x != a) = y :: ys.filter fun x => x != a := by
        simp [List.filter_cons, hya]
      rw [hf]
      simp only [dedupAux, List.mem_cons]
      by_cases hys : y ∈ seen
      · rw [if_pos (Or.inr hys), if_pos hys, ih seen]
      · rw [if_neg (by rintro (h | h); exact hya h; exact hys h), if_neg hys]
        rw [← ih (y :: seen)]
        refine congrArg (y :: ·) ?_
        refine dedupAux_congr ys _ _ fun z => ?_
        simp only [List.mem_cons]
        tauto

theorem jsSetDedup_sublist (l : List String) : List.Sublist (jsSetDedup l) l :=
  dedupAux_sublist l []

theorem jsSetDedup_nodup (l : List String) : (jsSetDedup l).Nodup :=
  dedupAux_nodup l []

theorem mem_jsSetDedup (x : String) (l : List String) : x ∈ jsSetDedup l ↔ x ∈ l := by
  rw [jsSetDedup, mem_dedupAux]
  simp

/-- The first-occurrence recurrence: the head of the input survives, and every
later copy of it is removed before the rest is deduplicated. -/
theorem jsSetDedup_cons (x : String) (xs : List String) :
    jsSetDedup (x :: xs) = x :: jsSetDedup (xs.filter fun y => y != x) := by
  show dedupAux [] (x :: xs) = _
  simp only [dedupAux, List.not_mem_nil, if_neg, if_false]
  rw [dedupAux_filter]
  rfl

/-! ## Lemmas about `chunksOf` -/

theorem chunksOf_ne_nil_eq {α : Type} (n : Nat) (hn : 0 < n) (l : List α) (hl : l ≠ []) :
    chunksOf n l = l.take n :: chunksOf n (l.drop n) := by
  match l with
  | [] => exact absurd rfl hl
  | x :: xs => rw [chunksOf, dif_neg (Nat.pos_iff_ne_zero.mp hn)]

theorem chunksOf_flatten {α : Type} (n : Nat) (hn : 0 < n) (l : List α) :
    (chunksOf n l).flatten = l := by
  match l with
  | [] => simp [chunksOf]
  | x :: xs =>
    rw [chunksOf_ne_nil_eq n hn _ (by simp), List.flatten_cons,
      chunksOf_flatten n hn ((x :: xs).drop n), List.take_append_drop]
termination_by l.length
decreasing_by simp only [List.length_drop]; exact Nat.sub_lt (Nat.succ_pos _) hn

theorem chunksOf_length_le {α : Type} (n : Nat) (l : List α) (w : List α)
    (hw : w ∈ chunksOf n l) : w.length ≤ n := by
  match l with
  | [] => simp [chunksOf] at hw
  | x :: xs =>
    by_cases h0 : n = 0
    · rw [chunksOf, dif_pos h0] at hw
      simp at hw
    · rw [chunksOf, dif_neg h0] at hw
      rcases List.mem_cons.mp hw with rfl | hw'
      · rw [List.length_take]
        exact Nat.min_le_left _ _
      · exact chunksOf_length_le n _ w hw'
termination_by l.length
decreasing_by
  simp only [List.length_drop]
  exact Nat.sub_lt (Nat.succ_pos _) (Nat.pos_of_ne_zero h0)

/-- One step of the ceiling-division recurrence used by both window counts. -/
theorem ceil_div_step (n m : Nat) (hn : 0 < n) (hm : 0 < m) :
    (m - n + n - 1) / n + 1 = (m + n - 1) / n := by
  rcases Nat.le_total m n with h | h
  · have h1 : m - n = 0 := Nat.sub_eq_zero_of_le h
    rw [h1]
    have h2 : (0 + n - 1) / n = 0 := Nat.div_eq_of_lt (by omega)
    have h3 : (m + n - 1) / n = 1 := Nat.div_eq_of_lt_le (by omega) (by omega)
    rw [h2, h3]
  · have hsum : m - n + n - 1 + n = m + n - 1 := by omega
    rw [← hsum, Nat.add_div_right _ hn]

theorem chunksOf_length {α : Type} (n : Nat) (hn : 0 < n) (l : List α) :
    (chunksOf n l).length = (l.length + n - 1) / n := by
  match l with
  | [] =>
    rw [chunksOf]
    simp only [List.length_nil, List.length]
    rw [Nat.zero_add]
    exact (Nat.div_eq_of_lt (by omega)).symm
  | x :: xs =>
    rw [chunksOf_ne_nil_eq n hn _ (by simp), List.length_cons,
      chunksOf_length n hn ((x :: xs).drop n), List.length_drop]
    exact ceil_div_step n (x :: xs).length hn (by simp)
termination_by l.length
decreasing_by simp only [List.length_drop]; exact Nat.sub_lt (Nat.succ_pos _) hn

/-! ## Lemmas about the window-submission loop -/

theorem submitBatches_ok_iff (env : Env) (aid : String) (ws : List (List String)) :
    (submitBatches env aid ws).1 = .ok () ↔ ∀ w ∈ ws, env.batchAddResult aid w = .ok () := by
  induction ws with
  | nil => simp [submitBatches]
  | cons b bs ih =>
    simp only [submitBatches]
    cases hb : env.batchAddResult aid b with
    | error e => simp [hb]
    | ok u => cases u; simp [hb, ih]

theorem submitBatches_events (env : Env) (aid : String) (ws : List (List String)) :
    ∃ k, (submitBatches env aid ws).2 = (ws.take k).map (Event.batchAddCall aid)
      ∧ ((submitBatches env aid ws).1 = .ok () → k = ws.length) := by
  induction ws with
  | nil => exact ⟨0, by simp [submitBatches]⟩
  | cons b bs ih =>
    simp only [submitBatches]
    cases hb : env.batchAddResult aid b with
    | error e =>
      refine ⟨1, by simp, fun h => by simp at h⟩
    | ok u =>
      obtain ⟨k, hk, hok⟩ := ih
      refine ⟨k + 1, ?_, ?_⟩
      · simp [List.take_succ_cons, hk]
      · intro h
        simp only [List.length_cons]
        rw [hok h]

theorem batchSubmissions_map_batchAdd (aid : String) (ws : List (List String)) :
    batchSubmissions (ws.map (Event.batchAddCall aid)) = ws.map fun w => (aid, w) := by
  induction ws with
  | nil => rfl
  | cons b bs ih => simp [batchSubmissions, List.filterMap_cons] at ih ⊢; exact ih

/-! ## Lemmas about the photo-chunk pipeline -/

/-- The per-photo loop is pointwise: the chunk result is exactly the list of
per-photo outcomes of the successful photos, in chunk order. -/
theorem processPhotoBatch_ids (env : Env) (d : Bool) (photos : List FlickrPhoto) :
    (processPhotoBatch env photos d).1
      = photos.filterMap fun p => (processSinglePhoto env d p).1 := by
  induction photos with
  | nil => rfl
  | cons p rest ih =>
    simp only [processPhotoBatch, List.filterMap_cons]
    cases h : (processSinglePhoto env d p).1 <;> simp [h, ih]

theorem processSinglePhoto_dry (env : Env) (p : FlickrPhoto) :
    processSinglePhoto env true p
      = (some ("dry_run_" ++ p.id), [.dryRunWouldTransfer p.id]) := rfl

theorem processSinglePhoto_download_error (env : Env) (p : FlickrPhoto) (e : String)
    (h : env.downloadResult p = .error e) :
    (processSinglePhoto env false p).1 = none := by
  simp [processSinglePhoto, h]

theorem processPhotoBatch_dry_ids (env : Env) (photos : List FlickrPhoto) :
    (processPhotoBatch env photos true).1 = photos.map fun p => "dry_run_" ++ p.id := by
  induction photos with
  | nil => rfl
  | cons p rest ih =>
    show (processSinglePhoto env true p).1.toList ++ (processPhotoBatch env rest true).1 = _
    rw [processSinglePhoto_dry, ih]
    rfl

theorem processPhotoBatch_dry_trace (env : Env) (photos : List FlickrPhoto) :
    (processPhotoBatch env photos true).2
      = photos.map fun p => Event.dryRunWouldTransfer p.id := by
  induction photos with
  | nil => rfl
  | cons p rest ih => simp only [processPhotoBatch, processSinglePhoto_dry, ih]; rfl

theorem uploadStep_trace (env : Env) (p : FlickrPhoto) (buf : String) :
    (uploadStep env p buf).2 = [Event.uploadCall (uploadFilename env p) p.description] := by
  unfold uploadStep
  rcases env.uploadResult buf (uploadFilename env p) p.description with e' | gid <;> rfl

/-- In live mode a single photo step emits the download call, possibly
followed by the upload call. -/
theorem processSinglePhoto_live_trace (env : Env) (p : FlickrPhoto) :
    (processSinglePhoto env false p).2 = [Event.downloadCall p.id]
      ∨ ∃ f, (processSinglePhoto env false p).2
          = [Event.downloadCall p.id, Event.uploadCall f p.description] := by
  unfold processSinglePhoto
  simp only [Bool.false_eq_true, if_false]
  rcases env.downloadResult p with e' | buf
  · exact Or.inl rfl
  · refine Or.inr ⟨uploadFilename env p, ?_⟩
    show Event.downloadCall p.id :: (uploadStep env p buf).2 = _
    rw [uploadStep_trace]

/-- Every event of a single photo step is a download, an upload, or a dry-run
log line. -/
theorem processSinglePhoto_trace_shape (env : Env) (d : Bool) (p : FlickrPhoto) :
    ∀ e ∈ (processSinglePhoto env d p).2,
      (∃ pid, e = .downloadCall pid) ∨ (∃ f ds, e = .uploadCall f ds)
        ∨ (∃ pid, e = .dryRunWouldTransfer pid) := by
  intro e he
  cases d with
  | true =>
    rw [processSinglePhoto_dry] at he
    simp only [List.mem_singleton] at he
    subst he
    exact Or.inr (Or.inr ⟨p.id, rfl⟩)
  | false =>
    rcases processSinglePhoto_live_trace env p with h | ⟨f, h⟩ <;> rw [h] at he
    · simp only [List.mem_singleton] at he
      subst he
      exact Or.inl ⟨p.id, rfl⟩
    · simp only [List.mem_cons, List.mem_singleton] at he
      rcases he with rfl | rfl | h'
      · exact Or.inl ⟨p.id, rfl⟩
      · exact Or.inr (Or.inl ⟨f, p.description, rfl⟩)
      · simp at h'

theorem processPhotoBatch_trace_shape (env : Env) (d : Bool) (photos : List FlickrPhoto) :
    ∀ e ∈ (processPhotoBatch env photos d).2,
      (∃ pid, e = .downloadCall pid) ∨ (∃ f ds, e = .uploadCall f ds)
        ∨ (∃ pid, e = .dryRunWouldTransfer pid) := by
  induction photos with
  | nil => intro e he; simp [processPhotoBatch] at he
  | cons p rest ih =>
    intro e he
    simp only [processPhotoBatch, List.mem_append] at he
    rcases he with he | he
    · exact processSinglePhoto_trace_shape env d p e he
    · exact ih e he

theorem savedJobs_append (t₁ t₂ : List Event) :
    savedJobs (t₁ ++ t₂) = savedJobs t₁ ++ savedJobs t₂ :=
  List.filterMap_append t₁ t₂ _

theorem savedJobs_photoBatch (env : Env) (d : Bool) (photos : List FlickrPhoto) :
    savedJobs (processPhotoBatch env photos d).2 = [] := by
  unfold savedJobs
  rw [List.filterMap_eq_nil_iff]
  intro e he
  rcases processPhotoBatch_trace_shape env d photos e he with ⟨pid, rfl⟩ | ⟨f, ds, rfl⟩ | ⟨pid, rfl⟩ <;> rfl

/-! ## Lemmas about the batching loop of `transferAlbum` -/

theorem chunkLoop_eq_pos (env : Env) (d : Bool) (B : Nat) (job : TransferJob)
    (i : Nat) (photos : List FlickrPhoto) (h : i < photos.length ∧ 0 < B) :
    chunkLoop env d B job i photos
      = ((processPhotoBatch env ((photos.drop i).take B) d).1
            ++ (chunkLoop env d B (chunkJob job B i photos.length) (i + B) photos).1,
          (chunkLoop env d B (chunkJob job B i photos.length) (i + B) photos).2.1,
          (processPhotoBatch env ((photos.drop i).take B) d).2
            ++ Event.saveJobCall (chunkJob job B i photos.length)
              :: (chunkLoop env d B (chunkJob job B i photos.length) (i + B) photos).2.2) := by
  rw [chunkLoop, dif_pos h]
  rfl

theorem chunkLoop_eq_neg (env : Env) (d : Bool) (B : Nat) (job : TransferJob)
    (i : Nat) (photos : List FlickrPhoto) (h : ¬(i < photos.length ∧ 0 < B)) :
    chunkLoop env d B job i photos = ([], job, []) := by
  rw [chunkLoop, dif_neg h]

theorem chunkJob_chunkJob (job : TransferJob) (B i i' total : Nat) :
    chunkJob (chunkJob job B i total) B i' total = chunkJob job B i' total := rfl

theorem chunkLoop_ids (env : Env) (d : Bool) (B : Nat) (hB : 0 < B)
    (job : TransferJob) (i : Nat) (photos : List FlickrPhoto) :
    (chunkLoop env d B job i photos).1
      = ((chunksOf B (photos.drop i)).map fun c => (processPhotoBatch env c d).1).flatten := by
  by_cases h : i < photos.length ∧ 0 < B
  · rw [chunkLoop_eq_pos env d B job i photos h]
    have hne : photos.drop i ≠ [] := by
      intro hnil
      rw [List.drop_eq_nil_iff] at hnil
      omega
    rw [chunksOf_ne_nil_eq B hB _ hne, List.map_cons, List.flatten_cons, List.drop_drop]
    rw [chunkLoop_ids env d B hB _ (i + B) photos]
  · rw [chunkLoop_eq_neg env d B job i photos h]
    have hge : photos.length ≤ i := by omega
    rw [List.drop_eq_nil_iff.mpr hge]
    simp [chunksOf]
termination_by photos.length - i
decreasing_by exact Nat.sub_lt_sub_left h.1 (Nat.lt_add_of_pos_right h.2)

theorem chunkLoop_final (env : Env) (d : Bool) (B : Nat)
    (job : TransferJob) (i : Nat) (photos : List FlickrPhoto) :
    (chunkLoop env d B job i photos).2.1
      = if i < photos.length ∧ 0 < B
          then { job with processedPhotos := photos.length, status := JobStatus.in_progress }
          else job := by
  by_cases h : i < photos.length ∧ 0 < B
  · rw [chunkLoop_eq_pos env d B job i photos h, if_pos h]
    rw [chunkLoop_final env d B _ (i + B) photos]
    by_cases h2 : i + B < photos.length ∧ 0 < B
    · rw [if_pos h2]
      rfl
    · rw [if_neg h2]
      unfold chunkJob
      have : min (i + B) photos.length = photos.length := by omega
      rw [this]
  · rw [chunkLoop_eq_neg env d B job i photos h, if_neg h]
termination_by photos.length - i
decreasing_by exact Nat.sub_lt_sub_left h.1 (Nat.lt_add_of_pos_right h.2)

theorem chunkLoop_saved (env : Env) (d : Bool) (B : Nat)
    (job : TransferJob) (i : Nat) (photos : List FlickrPhoto) :
    savedJobs (chunkLoop env d B job i photos).2.2
      = (chunkEnds B photos.length i).map fun m =>
          { job with processedPhotos := m, status := JobStatus.in_progress } := by
  by_cases h : i < photos.length ∧ 0 < B
  · rw [chunkLoop_eq_pos env d B job i photos h, chunkEnds, dif_pos h]
    show savedJobs (_ ++ _) = _
    rw [savedJobs_append, savedJobs_photoBatch, List.nil_append]
    have hrec := chunkLoop_saved env d B (chunkJob job B i photos.length) (i + B) photos
    show savedJobs (Event.saveJobCall (chunkJob job B i photos.length) :: _) = _
    unfold savedJobs at hrec ⊢
    rw [List.filterMap_cons]
    simp only []
    rw [hrec, List.map_cons]
    rfl
  · rw [chunkLoop_eq_neg env d B job i photos h, chunkEnds, dif_neg h]
    rfl
termination_by photos.length - i
decreasing_by exact Nat.sub_lt_sub_left h.1 (Nat.lt_add_of_pos_right h.2)

theorem chunkLoop_trace_shape (env : Env) (d : Bool) (B : Nat)
    (job : TransferJob) (i : Nat) (photos : List FlickrPhoto) :
    ∀ e ∈ (chunkLoop env d B job i photos).2.2,
      (∃ pid, e = .downloadCall pid) ∨ (∃ f ds, e = .uploadCall f ds)
        ∨ (∃ pid, e = .dryRunWouldTransfer pid) ∨ (∃ j, e = .saveJobCall j) := by
  by_cases h : i < photos.length ∧ 0 < B
  · rw [chunkLoop_eq_pos env d B job i photos h]
    intro e he
    simp only [List.mem_append, List.mem_cons] at he
    rcases he with he | he | he
    · rcases processPhotoBatch_trace_shape env d _ e he with h' | h' | h'
      · exact Or.inl h'
      · exact Or.inr (Or.inl h')
      · exact Or.inr (Or.inr (Or.inl h'))
    · exact Or.inr (Or.inr (Or.inr ⟨_, he⟩))
    · exact chunkLoop_trace_shape env d B _ (i + B) photos e he
  · rw [chunkLoop_eq_neg env d B job i photos h]
    intro e he
    simp at he
termination_by photos.length - i
decreasing_by exact Nat.sub_lt_sub_left h.1 (Nat.lt_add_of_pos_right h.2)

theorem chunkLoop_dry_would (env : Env) (B : Nat) (hB : 0 < B)
    (job : TransferJob) (i : Nat) (photos : List FlickrPhoto) :
    wouldTransferIds (chunkLoop env true B job i photos).2.2
      = (photos.drop i).map (fun p => p.id) := by
  by_cases h : i < photos.length ∧ 0 < B
  · rw [chunkLoop_eq_pos env true B job i photos h]
    show wouldTransferIds (_ ++ _ :: _) = _
    unfold wouldTransferIds
    rw [List.filterMap_append, List.filterMap_cons]
    simp only []
    have h1 : (processPhotoBatch env ((photos.drop i).take B) true).2.filterMap
        (fun e => match e with | .dryRunWouldTransfer pid => some pid | _ => none)
        = ((photos.drop i).take B).map fun p => p.id := by
      rw [processPhotoBatch_dry_trace, List.filterMap_map]
      show List.filterMap (some ∘ fun p : FlickrPhoto => p.id) ((photos.drop i).take B) = _
      rw [List.filterMap_eq_map]
    rw [h1]
    have h2 := chunkLoop_dry_would env B hB (chunkJob job B i photos.length) (i + B) photos
    unfold wouldTransferIds at h2
    rw [h2, ← List.map_append, List.drop_take_append_drop]
  · rw [chunkLoop_eq_neg env true B job i photos h]
    have hge : photos.length ≤ i := by omega
    rw [List.drop_eq_nil_iff.mpr hge]
    rfl
termination_by photos.length - i
decreasing_by exact Nat.sub_lt_sub_left h.1 (Nat.lt_add_of_pos_right h.2)

/-! ## Lemmas about the recorded progress indices -/

theorem chunkEnds_length (B N : Nat) (hB : 0 < B) (i : Nat) :
    (chunkEnds B N i).length = (N - i + B - 1) / B := by
  rw [chunkEnds]
  by_cases h : i < N ∧ 0 < B
  · rw [dif_pos h, List.length_cons, chunkEnds_length B N hB (i + B)]
    have hNi : N - (i + B) = N - i - B := by omega
    rw [hNi]
    exact ceil_div_step B (N - i) hB (by omega)
  · rw [dif_neg h]
    have : N - i = 0 := by omega
    rw [this]
    exact (Nat.div_eq_of_lt (by omega)).symm
termination_by N - i
decreasing_by exact Nat.sub_lt_sub_left h.1 (Nat.lt_add_of_pos_right h.2)

theorem chunkEnds_snoc (B N : Nat) (i : Nat) (h : i < N ∧ 0 < B) :
    ∃ pre, chunkEnds B N i = pre ++ [N] := by
  rw [chunkEnds, dif_pos h]
  by_cases h2 : i + B < N ∧ 0 < B
  · obtain ⟨pre, hpre⟩ := chunkEnds_snoc B N (i + B) h2
    exact ⟨min (i + B) N :: pre, by rw [hpre]; rfl⟩
  · refine ⟨[], ?_⟩
    rw [chunkEnds, dif_neg h2]
    have : min (i + B) N = N := by omega
    rw [this]
    rfl
termination_by N - i
decreasing_by exact Nat.sub_lt_sub_left h.1 (Nat.lt_add_of_pos_right h.2)

theorem chunkEnds_ge (B N j : Nat) :
    ∀ m ∈ chunkEnds B N j, min (j + B) N ≤ m := by
  rw [chunkEnds]
  by_cases h : j < N ∧ 0 < B
  · rw [dif_pos h]
    intro m hm
    rcases List.mem_cons.mp hm with rfl | hm'
    · exact Nat.le_refl _
    · have := chunkEnds_ge B N (j + B) m hm'
      exact Nat.le_trans (min_le_min (by omega) (Nat.le_refl N)) this
  · rw [dif_neg h]
    intro m hm
    simp at hm
termination_by N - j
decreasing_by exact Nat.sub_lt_sub_left h.1 (Nat.lt_add_of_pos_right h.2)

theorem chunkEnds_append_chain (B N : Nat) (i : Nat) :
    List.Chain' (· ≤ ·) (chunkEnds B N i ++ [N]) := by
  rw [chunkEnds]
  by_cases h : i < N ∧ 0 < B
  · rw [dif_pos h]
    rw [List.cons_append, List.chain'_cons']
    refine ⟨?_, chunkEnds_append_chain B N (i + B)⟩
    intro y hy
    cases h1 : chunkEnds B N (i + B) with
    | nil =>
      rw [h1] at hy
      simp at hy
      subst hy
      exact Nat.min_le_right _ _
    | cons a l' =>
      rw [h1] at hy
      simp at hy
      subst hy
      have ha : a ∈ chunkEnds B N (i + B) := by rw [h1]; exact List.mem_cons_self a l'
      have := chunkEnds_ge B N (i + B) a ha
      exact Nat.le_trans (Nat.le_trans (min_le_min (by omega) (Nat.le_refl N)) this) (Nat.le_refl a)
  · rw [dif_neg h]
    simp
termination_by N - i
decreasing_by exact Nat.sub_lt_sub_left h.1 (Nat.lt_add_of_pos_right h.2)

theorem effBatchSize_pos (n : Nat) : 0 < effBatchSize n := by
  unfold effBatchSize
  split <;> omega

/-! ## Lemmas about the membership branch and `transferAlbum` -/

theorem membershipStep_dry (env : Env) (ga : Option GoogleAlbum) (ids : List String) :
    membershipStep env true ga ids = (.ok (), []) := rfl

theorem membershipStep_noAlbum (env : Env) (ids : List String) :
    membershipStep env false none ids = (.ok (), []) := rfl

theorem membershipStep_empty (env : Env) (ga : GoogleAlbum) :
    membershipStep env false (some ga) [] = (.ok (), []) := rfl

theorem membershipStep_call (env : Env) (ga : GoogleAlbum) (ids : List String) (h : ids ≠ []) :
    membershipStep env false (some ga) ids = addPhotosToAlbum env ga.id ids := by
  show (if ids.length = 0 then ((Except.ok ()), ([] : List Event)) else addPhotosToAlbum env ga.id ids) = _
  rw [if_neg (by simp [h])]

theorem savedJobs_batchAddMap (aid : String) (ws : List (List String)) :
    savedJobs (ws.map (Event.batchAddCall aid)) = [] := by
  induction ws with
  | nil => rfl
  | cons b bs ih =>
    show savedJobs (Event.batchAddCall aid b :: bs.map (Event.batchAddCall aid)) = []
    unfold savedJobs at ih ⊢
    rw [List.filterMap_cons]
    exact ih

theorem savedJobs_addPhotos (env : Env) (aid : String) (ids : List String) :
    savedJobs (addPhotosToAlbum env aid ids).2 = [] := by
  obtain ⟨k, hk, _⟩ := submitBatches_events env aid (chunksOf 50 (jsSetDedup ids))
  show savedJobs (Event.addPhotosToAlbumCall aid ids :: (submitBatches env aid (chunksOf 50 (jsSetDedup ids))).2) = []
  unfold savedJobs
  rw [List.filterMap_cons]
  simp only []
  rw [hk]
  exact savedJobs_batchAddMap aid _

theorem savedJobs_membership (env : Env) (d : Bool) (ga : Option GoogleAlbum) (ids : List String) :
    savedJobs (membershipStep env d ga ids).2 = [] := by
  cases d with
  | true => rfl
  | false =>
    cases ga with
    | none => rfl
    | some g =>
      show savedJobs (if ids.length = 0 then ((Except.ok ()), ([] : List Event)) else addPhotosToAlbum env g.id ids).2 = []
      by_cases h : ids.length = 0
      · rw [if_pos h]
        rfl
      · rw [if_neg h]
        exact savedJobs_addPhotos env g.id ids

/-- `transferAlbum` under dry-run: album creation is skipped, the membership
branch only logs, and the run saves the pending job, the per-chunk updates
and the completed job. -/
theorem transferAlbum_dry (env : Env) (album : FlickrAlbum) (oa : Option String) (ob : Nat) :
    transferAlbum env album { albumId := oa, dryRun := true, batchSize := ob }
      = (.ok (), Event.saveJobCall (initialJob env album)
          :: (albumLoop env album { albumId := oa, dryRun := true, batchSize := ob }).2.2
          ++ [Event.saveJobCall (completeJob env
                (albumLoop env album { albumId := oa, dryRun := true, batchSize := ob }).2.1)]) := by
  simp [transferAlbum, albumLoop, membershipStep]

/-- `transferAlbum` in live mode when album creation rejects: the failed job
is saved and the error rethrown before any photo work. -/
theorem transferAlbum_createFail (env : Env) (album : FlickrAlbum) (oa : Option String) (ob : Nat)
    (e : String) (hc : env.createAlbumResult album.title = .error e) :
    transferAlbum env album { albumId := oa, dryRun := false, batchSize := ob }
      = (.error e, Event.saveJobCall (initialJob env album)
          :: Event.createAlbumCall album.title
          :: [Event.saveJobCall (failJob env (initialJob env album) e)]) := by
  simp [transferAlbum, hc]

/-- `transferAlbum` in live mode when album creation succeeds: the outcome is
the membership branch's outcome, and the trace consists of the job saves, the
creation call, the loop trace and the membership trace. -/
theorem transferAlbum_createOk (env : Env) (album : FlickrAlbum) (oa : Option String) (ob : Nat)
    (ga : GoogleAlbum) (hc : env.createAlbumResult album.title = .ok ga) :
    transferAlbum env album { albumId := oa, dryRun := false, batchSize := ob }
      = (match (membershipStep env false (some ga)
            (albumLoop env album { albumId := oa, dryRun := false, batchSize := ob }).1).1 with
         | .ok _ => (.ok (), Event.saveJobCall (initialJob env album)
              :: Event.createAlbumCall album.title
              :: (albumLoop env album { albumId := oa, dryRun := false, batchSize := ob }).2.2
              ++ (membershipStep env false (some ga)
                    (albumLoop env album { albumId := oa, dryRun := false, batchSize := ob }).1).2
              ++ [Event.saveJobCall (completeJob env
                    (albumLoop env album { albumId := oa, dryRun := false, batchSize := ob }).2.1)])
         | .error e => (.error e, Event.saveJobCall (initialJob env album)
              :: Event.createAlbumCall album.title
              :: (albumLoop env album { albumId := oa, dryRun := false, batchSize := ob }).2.2
              ++ (membershipStep env false (some ga)
                    (albumLoop env album { albumId := oa, dryRun := false, batchSize := ob }).1).2
              ++ [Event.saveJobCall (failJob env
                    (albumLoop env album { albumId := oa, dryRun := false, batchSize := ob }).2.1 e)])) := by
  cases hm : (membershipStep env false (some ga)
      (chunkLoop env false (effBatchSize ob) (initialJob env album) 0 album.photos).1).1 with
  | ok u => simp [transferAlbum, albumLoop, hc, hm]
  | error e => simp [transferAlbum, albumLoop, hc, hm]

theorem chunkLoop_dry_shape (env : Env) (B : Nat) (job : TransferJob) (i : Nat)
    (photos : List FlickrPhoto) :
    ∀ e ∈ (chunkLoop env true B job i photos).2.2,
      (∃ pid, e = .dryRunWouldTransfer pid) ∨ (∃ j, e = .saveJobCall j) := by
  by_cases h : i < photos.length ∧ 0 < B
  · rw [chunkLoop_eq_pos env true B job i photos h]
    intro e he
    simp only [List.mem_append, List.mem_cons] at he
    rcases he with he | he | he
    · rw [processPhotoBatch_dry_trace] at he
      obtain ⟨p, _, rfl⟩ := List.mem_map.mp he
      exact Or.inl ⟨p.id, rfl⟩
    · exact Or.inr ⟨_, he⟩
    · exact chunkLoop_dry_shape env B _ (i + B) photos e he
  · rw [chunkLoop_eq_neg env true B job i photos h]
    intro e he
    simp at he
termination_by photos.length - i
decreasing_by exact Nat.sub_lt_sub_left h.1 (Nat.lt_add_of_pos_right h.2)

theorem savedJobs_cons_save (j : TransferJob) (t : List Event) :
    savedJobs (Event.saveJobCall j :: t) = j :: savedJobs t := by
  simp [savedJobs]

theorem savedJobs_cons_create (s : String) (t : List Event) :
    savedJobs (Event.createAlbumCall s :: t) = savedJobs t := by
  simp [savedJobs]

theorem savedJobs_singleton_save (j : TransferJob) :
    savedJobs [Event.saveJobCall j] = [j] := rfl

/-- Every event of the membership branch is the service-entry call or one
window request. -/
theorem membershipStep_trace_shape (env : Env) (d : Bool) (ga : Option GoogleAlbum)
    (ids : List String) :
    ∀ e ∈ (membershipStep env d ga ids).2,
      (∃ a l, e = .addPhotosToAlbumCall a l ∧ l = ids ∧ l ≠ [])
        ∨ (∃ a w, e = .batchAddCall a w) := by
  cases d with
  | true => intro e he; simp [membershipStep_dry] at he
  | false =>
    cases ga with
    | none => intro e he; simp [membershipStep_noAlbum] at he
    | some g =>
      rcases ids with _ | ⟨x, xs⟩
      · intro e he; simp [membershipStep_empty] at he
      · rw [membershipStep_call env g (x :: xs) (by simp)]
        intro e he
        obtain ⟨k, hk, _⟩ := submitBatches_events env g.id (chunksOf 50 (jsSetDedup (x :: xs)))
        have : (addPhotosToAlbum env g.id (x :: xs)).2
            = Event.addPhotosToAlbumCall g.id (x :: xs)
              :: (submitBatches env g.id (chunksOf 50 (jsSetDedup (x :: xs)))).2 := rfl
        rw [this, hk] at he
        rcases List.mem_cons.mp he with rfl | he'
        · exact Or.inl ⟨g.id, x :: xs, rfl, rfl, by simp⟩
        · obtain ⟨w, _, rfl⟩ := List.mem_map.mp he'
          exact Or.inr ⟨g.id, w, rfl⟩

theorem transferAlbums_cons_ok (env : Env) (a : FlickrAlbum) (rest : List FlickrAlbum)
    (opts : TransferOptions) (h : (transferAlbum env a opts).1 = .ok ()) :
    transferAlbums env (a :: rest) opts
      = ((transferAlbums env rest opts).1,
          (transferAlbum env a opts).2 ++ (transferAlbums env rest opts).2) := by
  simp [transferAlbums, h]

theorem transferAlbums_cons_err (env : Env) (a : FlickrAlbum) (rest : List FlickrAlbum)
    (opts : TransferOptions) (e : String) (h : (transferAlbum env a opts).1 = .error e) :
    transferAlbums env (a :: rest) opts = (.error e, (transferAlbum env a opts).2) := by
  simp [transferAlbums, h]

/-- Monotonicity of the saved progress counters: the pending record, the
per-chunk records, then a terminal record carrying the loop's final count. -/
theorem saved_chain (j0 : TransferJob) (B N : Nat) (hp : j0.processedPhotos = 0)
    (t : TransferJob)
    (ht : t.processedPhotos = if 0 < N ∧ 0 < B then N else j0.processedPhotos) :
    List.Chain' (fun a b => a.processedPhotos ≤ b.processedPhotos)
      (j0 :: ((chunkEnds B N 0).map fun m =>
          { j0 with processedPhotos := m, status := JobStatus.in_progress }) ++ [t]) := by
  have hmap : ((j0 :: ((chunkEnds B N 0).map fun m =>
      { j0 with processedPhotos := m, status := JobStatus.in_progress }) ++ [t]).map
        fun j => j.processedPhotos)
      = (j0.processedPhotos :: chunkEnds B N 0) ++ [t.processedPhotos] := by
    simp only [List.map_append, List.map_cons, List.map_map, List.map_nil]
    rw [show ((fun j : TransferJob => j.processedPhotos) ∘ fun m =>
        { j0 with processedPhotos := m, status := JobStatus.in_progress }) = fun m => m from rfl]
    rw [List.map_id']
  have hnat : List.Chain' (· ≤ ·)
      ((j0.processedPhotos :: chunkEnds B N 0) ++ [t.processedPhotos]) := by
    show List.Chain' (· ≤ ·) (j0.processedPhotos :: (chunkEnds B N 0 ++ [t.processedPhotos]))
    rw [List.chain'_cons']
    constructor
    · intro y _
      rw [hp]
      exact Nat.zero_le y
    · by_cases h : 0 < N ∧ 0 < B
      · rw [ht, if_pos h]
        exact chunkEnds_append_chain B N 0
      · have hce : chunkEnds B N 0 = [] := by
          rw [chunkEnds, dif_neg (by omega)]
        rw [hce, ht, if_neg h]
        simp
  exact (List.chain'_map (fun j : TransferJob => j.processedPhotos)).mp (hmap ▸ hnat)

theorem savedJobs_sandwich (j c : TransferJob) (L : List Event) :
    savedJobs (Event.saveJobCall j :: L ++ [Event.saveJobCall c]) = j :: savedJobs L ++ [c] := by
  rw [savedJobs_append, savedJobs_cons_save, savedJobs_singleton_save]

theorem savedJobs_sandwich_create (j c : TransferJob) (s : String) (L M : List Event)
    (hM : savedJobs M = []) :
    savedJobs (Event.saveJobCall j :: Event.createAlbumCall s :: L ++ M ++ [Event.saveJobCall c])
      = j :: savedJobs L ++ [c] := by
  rw [savedJobs_append, savedJobs_append, savedJobs_cons_save, savedJobs_cons_create, hM,
    savedJobs_singleton_save]
  simp

/-- Case analysis of `transferAlbum`: either it succeeds and saved the
pending record, the per-chunk records and the completed record, or it fails
and saved either just pending + failed (album creation rejected) or the full
loop records + failed (membership rejected). -/
theorem transferAlbum_saved_cases (env : Env) (album : FlickrAlbum) (oa : Option String)
    (od : Bool) (ob : Nat) :
    ((transferAlbum env album { albumId := oa, dryRun := od, batchSize := ob }).1 = .ok ()
       ∧ savedJobs (transferAlbum env album { albumId := oa, dryRun := od, batchSize := ob }).2
           = initialJob env album
              :: savedJobs (albumLoop env album { albumId := oa, dryRun := od, batchSize := ob }).2.2
              ++ [completeJob env (albumLoop env album { albumId := oa, dryRun := od, batchSize := ob }).2.1])
    ∨ (∃ e, (transferAlbum env album { albumId := oa, dryRun := od, batchSize := ob }).1 = .error e
       ∧ (savedJobs (transferAlbum env album { albumId := oa, dryRun := od, batchSize := ob }).2
             = [initialJob env album, failJob env (initialJob env album) e]
          ∨ savedJobs (transferAlbum env album { albumId := oa, dryRun := od, batchSize := ob }).2
             = initialJob env album
                :: savedJobs (albumLoop env album { albumId := oa, dryRun := od, batchSize := ob }).2.2
                ++ [failJob env (albumLoop env album { albumId := oa, dryRun := od, batchSize := ob }).2.1 e])) := by
  cases od with
  | true =>
    left
    rw [transferAlbum_dry env album oa ob]
    exact ⟨rfl, savedJobs_sandwich _ _ _⟩
  | false =>
    cases hc : env.createAlbumResult album.title with
    | error e =>
      right
      refine ⟨e, ?_, Or.inl ?_⟩
      · rw [transferAlbum_createFail env album oa ob e hc]
      · rw [transferAlbum_createFail env album oa ob e hc]
        show savedJobs (Event.saveJobCall (initialJob env album)
          :: Event.createAlbumCall album.title
          :: [Event.saveJobCall (failJob env (initialJob env album) e)]) = _
        rw [savedJobs_cons_save, savedJobs_cons_create, savedJobs_singleton_save]
    | ok ga =>
      cases hm : (membershipStep env false (some ga)
          (albumLoop env album { albumId := oa, dryRun := false, batchSize := ob }).1).1 with
      | ok u =>
        left
        rw [transferAlbum_createOk env album oa ob ga hc, hm]
        refine ⟨rfl, ?_⟩
        exact savedJobs_sandwich_create _ _ _ _ _ (savedJobs_membership env false (some ga) _)
      | error e =>
        right
        rw [transferAlbum_createOk env album oa ob ga hc, hm]
        refine ⟨e, rfl, Or.inr ?_⟩
        exact savedJobs_sandwich_create _ _ _ _ _ (savedJobs_membership env false (some ga) _)

/-- Every event of a dry-run `transferAlbum` is a per-photo would-transfer
line or a job save. -/
theorem transferAlbum_dry_shape (env : Env) (album : FlickrAlbum) (oa : Option String) (ob : Nat) :
    ∀ e ∈ (transferAlbum env album { albumId := oa, dryRun := true, batchSize := ob }).2,
      (∃ pid, e = .dryRunWouldTransfer pid) ∨ (∃ j, e = .saveJobCall j) := by
  rw [transferAlbum_dry env album oa ob]
  intro e he
  rcases List.mem_append.mp he with he | he
  · rcases List.mem_cons.mp he with rfl | he
    · exact Or.inr ⟨_, rfl⟩
    · exact chunkLoop_dry_shape env (effBatchSize ob) (initialJob env album) 0 album.photos e he
  · rcases List.mem_singleton.mp he with rfl
    exact Or.inr ⟨_, rfl⟩

/-- Every event of a live `transferAlbum` whose album creation succeeded is
the pending save, the creation call, a loop event, a membership event, or the
terminal save. -/
theorem transferAlbum_createOk_shape (env : Env) (album : FlickrAlbum) (oa : Option String)
    (ob : Nat) (ga : GoogleAlbum) (hc : env.createAlbumResult album.title = .ok ga) :
    ∀ e ∈ (transferAlbum env album { albumId := oa, dryRun := false, batchSize := ob }).2,
      e = .saveJobCall (initialJob env album) ∨ e = .createAlbumCall album.title
      ∨ e ∈ (albumLoop env album { albumId := oa, dryRun := false, batchSize := ob }).2.2
      ∨ e ∈ (membershipStep env false (some ga)
            (albumLoop env album { albumId := oa, dryRun := false, batchSize := ob }).1).2
      ∨ (∃ j, e = .saveJobCall j) := by
  rw [transferAlbum_createOk env album oa ob ga hc]
  cases (membershipStep env false (some ga)
      (albumLoop env album { albumId := oa, dryRun := false, batchSize := ob }).1).1 with
  | ok u =>
    intro e he
    rcases List.mem_append.mp he with he | he
    · rcases List.mem_append.mp he with he | he
      · rcases List.mem_cons.mp he with rfl | he
        · exact Or.inl rfl
        · rcases List.mem_cons.mp he with rfl | he
          · exact Or.inr (Or.inl rfl)
          · exact Or.inr (Or.inr (Or.inl he))
      · exact Or.inr (Or.inr (Or.inr (Or.inl he)))
    · rcases List.mem_singleton.mp he with rfl
      exact Or.inr (Or.inr (Or.inr (Or.inr ⟨_, rfl⟩)))
  | error e' =>
    intro e he
    rcases List.mem_append.mp he with he | he
    · rcases List.mem_append.mp he with he | he
      · rcases List.mem_cons.mp he with rfl | he
        · exact Or.inl rfl
        · rcases List.mem_cons.mp he with rfl | he
          · exact Or.inr (Or.inl rfl)
          · exact Or.inr (Or.inr (Or.inl he))
      · exact Or.inr (Or.inr (Or.inr (Or.inl he)))
    · rcases List.mem_singleton.mp he with rfl
      exact Or.inr (Or.inr (Or.inr (Or.inr ⟨_, rfl⟩)))

/-! ## Claim theorems -/

/-- C1: for every id list passed to `DestinationClient.addPhotosToAlbum`, the
ids submitted in membership-mutation requests are the input deduplicated
preserving first-occurrence order (order-preserving subsequence, no
duplicates, same membership, head-first recurrence — not a sort), split into
consecutive windows of at most 50, submitted in window order (the submitted
windows are a leading segment of the window list, and all of it on success),
and a failing window makes the whole call reject. -/
theorem c1_membership_dedup_windows (env : Env) (aid : String) (ids : List String) :
    List.Sublist (jsSetDedup ids) ids
    ∧ (jsSetDedup ids).Nodup
    ∧ (∀ x, x ∈ jsSetDedup ids ↔ x ∈ ids)
    ∧ (∀ x xs, jsSetDedup (x :: xs) = x :: jsSetDedup (xs.filter fun y => y != x))
    ∧ (chunksOf 50 (jsSetDedup ids)).flatten = jsSetDedup ids
    ∧ (∀ w ∈ chunksOf 50 (jsSetDedup ids), w.length ≤ 50)
    ∧ (∃ k, batchSubmissions (addPhotosToAlbum env aid ids).2
          = ((chunksOf 50 (jsSetDedup ids)).take k).map fun w => (aid, w))
    ∧ ((addPhotosToAlbum env aid ids).1 = .ok ()
        → batchSubmissions (addPhotosToAlbum env aid ids).2
            = (chunksOf 50 (jsSetDedup ids)).map fun w => (aid, w))
    ∧ ((addPhotosToAlbum env aid ids).1 = .ok ()
        ↔ ∀ w ∈ chunksOf 50 (jsSetDedup ids), env.batchAddResult aid w = .ok ()) := by
  have hb : batchSubmissions (addPhotosToAlbum env aid ids).2
      = batchSubmissions (submitBatches env aid (chunksOf 50 (jsSetDedup ids))).2 := by
    show batchSubmissions (Event.addPhotosToAlbumCall aid ids :: _) = _
    simp [batchSubmissions]
  obtain ⟨k, hk, hok⟩ := submitBatches_events env aid (chunksOf 50 (jsSetDedup ids))
  have h1 : (addPhotosToAlbum env aid ids).1
      = (submitBatches env aid (chunksOf 50 (jsSetDedup ids))).1 := rfl
  refine ⟨jsSetDedup_sublist ids, jsSetDedup_nodup ids, fun x => mem_jsSetDedup x ids,
    jsSetDedup_cons, chunksOf_flatten 50 (by omega) _,
    fun w hw => chunksOf_length_le 50 _ w hw, ?_, ?_, ?_⟩
  · exact ⟨k, by rw [hb, hk, batchSubmissions_map_batchAdd]⟩
  · intro h
    rw [h1] at h
    rw [hb, hk, hok h, List.take_length, batchSubmissions_map_batchAdd]
  · rw [h1]
    exact submitBatches_ok_iff env aid _

/-- Witness for C1 at the spec's concrete example: dedup of
`[A, B, A, C, B]` is `[A, B, C]` (first-occurrence order, not the duplicated
or sorted list), and with every window request succeeding the submitted
windows are exactly the windows of the deduplicated list. -/
theorem c1_witness :
    jsSetDedup ["A", "B", "A", "C", "B"] = ["A", "B", "C"]
    ∧ jsSetDedup ["A", "B", "A", "C", "B"] ≠ ["A", "A", "B", "B", "C"]
    ∧ batchSubmissions (addPhotosToAlbum envOk "al" ["A", "B", "A", "C", "B"]).2
        = (chunksOf 50 (jsSetDedup ["A", "B", "A", "C", "B"])).map (fun w => ("al", w)) := by
  have hok : (addPhotosToAlbum envOk "al" ["A", "B", "A", "C", "B"]).1 = .ok () := by
    show (submitBatches envOk "al" (chunksOf 50 (jsSetDedup ["A", "B", "A", "C", "B"]))).1 = .ok ()
    exact (submitBatches_ok_iff envOk "al" _).mpr fun w _ => rfl
  exact ⟨by decide, by decide,
    (c1_membership_dedup_windows envOk "al" ["A", "B", "A", "C", "B"]).2.2.2.2.2.2.2.1 hok⟩

/-- C2: in live mode the photo-chunk pipeline is pointwise — the chunk result
is exactly the per-photo outcomes of the successful photos in order, so a
photo whose fetch or upload rejects is omitted while all other photos are
still processed (the per-photo catch is embedded by the `Option` result, so
no exception leaves `processPhotoBatch`); in particular a chunk of 5 photos
whose second photo fails during fetch yields exactly the four ids of photos
1, 3, 4, 5 in order. -/
theorem c2_partial_failure (env : Env) (photos : List FlickrPhoto) :
    (processPhotoBatch env photos false).1
      = photos.filterMap (fun p => (processSinglePhoto env false p).1)
    ∧ ∀ (p₁ p₂ p₃ p₄ p₅ : FlickrPhoto) (g₁ g₃ g₄ g₅ e : String),
        (processSinglePhoto env false p₁).1 = some g₁ →
        env.downloadResult p₂ = .error e →
        (processSinglePhoto env false p₃).1 = some g₃ →
        (processSinglePhoto env false p₄).1 = some g₄ →
        (processSinglePhoto env false p₅).1 = some g₅ →
        (processPhotoBatch env [p₁, p₂, p₃, p₄, p₅] false).1 = [g₁, g₃, g₄, g₅] := by
  refine ⟨processPhotoBatch_ids env false photos, ?_⟩
  intro p₁ p₂ p₃ p₄ p₅ g₁ g₃ g₄ g₅ e h1 h2 h3 h4 h5
  rw [processPhotoBatch_ids]
  simp [List.filterMap_cons, h1, processSinglePhoto_download_error env p₂ e h2, h3, h4, h5]

/-- Witness for C2: with an environment failing the download of photo `p2`,
the 5-photo chunk yields exactly the four ids of the other photos, in order. -/
theorem c2_witness :
    (processPhotoBatch envFailP2 photosW false).1
      = ["g_p1.jpg", "g_p3.jpg", "g_p4.jpg", "g_p5.jpg"] :=
  (c2_partial_failure envFailP2 photosW).2 (photoK "p1") (photoK "p2") (photoK "p3")
    (photoK "p4") (photoK "p5") "g_p1.jpg" "g_p3.jpg" "g_p4.jpg" "g_p5.jpg" "boom"
    rfl rfl rfl rfl rfl

/-- C5: `createGoogleDescription` concatenates `<name> - <description>` when
both fields are populated (JS-truthy: defined and non-empty, the reading the
code's truthiness tests and the unit tests' word "populated" give to
"present"), returns the name alone when only the name is populated, the
description alone when only the description is populated, and the empty
string otherwise; the spec's four concrete equations hold verbatim. -/
theorem c5_createGoogleDescription (n d : Option String) :
    (jsTruthy n = true → jsTruthy d = true →
        createGoogleDescription n d = n.getD "" ++ " - " ++ d.getD "")
    ∧ (jsTruthy n = true → jsTruthy d = false → createGoogleDescription n d = n.getD "")
    ∧ (jsTruthy n = false → jsTruthy d = true → createGoogleDescription n d = d.getD "")
    ∧ (jsTruthy n = false → jsTruthy d = false → createGoogleDescription n d = "")
    ∧ createGoogleDescription (some "Photo 1") (some "Description 1") = "Photo 1 - Description 1"
    ∧ createGoogleDescription (some "Photo 1") none = "Photo 1"
    ∧ createGoogleDescription none (some "Description 1") = "Description 1"
    ∧ createGoogleDescription none none = "" := by
  refine ⟨?_, ?_, ?_, ?_, by decide, by decide, by decide, by decide⟩ <;>
    intro h1 h2 <;> simp [createGoogleDescription, h1, h2]

/-- Witness for C5 at the spec's first concrete equation. -/
theorem c5_witness :
    createGoogleDescription (some "Photo 1") (some "Description 1")
      = (some "Photo 1").getD "" ++ " - " ++ (some "Description 1").getD "" :=
  (c5_createGoogleDescription (some "Photo 1") (some "Description 1")).1 (by decide) (by decide)

/-- C3: for every album and batch size `B ≥ 1`, the batching loop of
`transferAlbum` slices the photo list into consecutive windows of size `B`
(last possibly shorter) and processes exactly `ceil(N / B)` of them — one
per-chunk job save each — and after the final chunk the recorded
`processedPhotos` equals `N`, for every environment, so per-photo failures
(which shrink the id list) never change the processed-count accounting. -/
theorem c3_chunk_count_processed (env : Env) (d : Bool) (B : Nat) (hB : 0 < B)
    (job : TransferJob) (photos : List FlickrPhoto) :
    (chunkLoop env d B job 0 photos).1
      = ((chunksOf B photos).map fun c => (processPhotoBatch env c d).1).flatten
    ∧ (chunksOf B photos).length = (photos.length + B - 1) / B
    ∧ (savedJobs (chunkLoop env d B job 0 photos).2.2).length = (photos.length + B - 1) / B
    ∧ (photos ≠ [] →
        (chunkLoop env d B job 0 photos).2.1
          = { job with processedPhotos := photos.length, status := JobStatus.in_progress })
    ∧ (photos ≠ [] → ∃ pre, savedJobs (chunkLoop env d B job 0 photos).2.2
          = pre ++ [{ job with processedPhotos := photos.length, status := JobStatus.in_progress }]) := by
  refine ⟨?_, chunksOf_length B hB photos, ?_, ?_, ?_⟩
  · rw [chunkLoop_ids env d B hB job 0 photos, List.drop_zero]
  · rw [chunkLoop_saved, List.length_map, chunkEnds_length B photos.length hB 0, Nat.sub_zero]
  · intro h
    rw [chunkLoop_final, if_pos ⟨List.length_pos.mpr h, hB⟩]
  · intro h
    rw [chunkLoop_saved]
    obtain ⟨pre, hpre⟩ := chunkEnds_snoc B photos.length 0 ⟨List.length_pos.mpr h, hB⟩
    rw [hpre, List.map_append]
    exact ⟨_, rfl⟩

/-- Witness for C3: five photos with batch size 2 give `ceil(5/2) = 3` chunk
saves and a final recorded count of 5, in an environment where every upload
fails. -/
theorem c3_witness :
    (savedJobs (chunkLoop envUploadFail false 2 jobW 0 photosW).2.2).length
        = (photosW.length + 2 - 1) / 2
    ∧ (chunkLoop envUploadFail false 2 jobW 0 photosW).2.1
        = { jobW with processedPhotos := photosW.length, status := JobStatus.in_progress } :=
  ⟨(c3_chunk_count_processed envUploadFail false 2 (by decide) jobW photosW).2.2.1,
    (c3_chunk_count_processed envUploadFail false 2 (by decide) jobW photosW).2.2.2.1 (by decide)⟩

/-- C9: the claim states the comparator's written intent — all stored jobs,
most recently started first — but the code has a slip the claim's
two-or-more-jobs clause trips over: the persisted `startTime` deserializes as
a plain string, so the comparator's `getTime()` call throws a `TypeError` on
its first invocation — which happens exactly when two or more jobs are stored
— and the surrounding catch returns the empty list.  Evaluated at the failing
input: with two stored jobs the listing is empty, not the two jobs newest
first; with a single stored job (the comparator never runs) and for the
by-id query (which never touches `getTime`) the code behaves as claimed. -/
theorem c9_listing_code_bug :
    jobComparator storedJob1 storedJob2
      = .error "TypeError: startTime.getTime is not a function"
    ∧ getAllJobs [("job_1_a.json", storedJob1), ("job_2_b.json", storedJob2)] = []
    ∧ getAllJobs [("job_1_a.json", storedJob1), ("job_2_b.json", storedJob2)]
        ≠ [storedJob2, storedJob1]
    ∧ getAllJobs [("job_1_a.json", storedJob1)] = [storedJob1]
    ∧ getJob [("job_1_a.json", storedJob1), ("job_2_b.json", storedJob2)] "job_1_a"
        = some storedJob1
    ∧ getJob [("job_1_a.json", storedJob1), ("job_2_b.json", storedJob2)] "missing" = none :=
  ⟨rfl, rfl, by decide, rfl, rfl, rfl⟩

/-- C10: for every album found in the export listing (with metadata files
that carry the id they are named after), `getAlbumDetails` succeeds, its
photo list never contains an entry with identifier `0` (such ids are filtered
from the album listing before metadata is loaded), every listed photo whose
metadata is unreadable is silently omitted, and the declared `photoCount` is
taken unchanged from the export — so the returned list can be shorter than
both the declared count and the raw id list without any error. -/
theorem c10_bulk_export_album (store : FlickrExportStore) (albumId : String) (a : AlbumData)
    (hfind : store.albums.find? (fun x => x.id == albumId) = some a)
    (hcons : ∀ pid p, store.photoMeta pid = some p → p.id = pid) :
    ∃ r, getAlbumDetails store albumId = .ok r
      ∧ r.photos = (a.photos.filter fun pid => pid != "0").filterMap store.photoMeta
      ∧ (∀ p ∈ r.photos, p.id ≠ "0")
      ∧ r.photoCount = a.photo_count
      ∧ r.photos.length ≤ (a.photos.filter fun pid => pid != "0").length
      ∧ (a.photos.filter fun pid => pid != "0").length ≤ a.photos.length
      ∧ (∀ pid ∈ a.photos, store.photoMeta pid = none → ∀ p ∈ r.photos, p.id ≠ pid) := by
  refine ⟨_, by unfold getAlbumDetails; rw [hfind], rfl, ?_, rfl,
    List.length_filterMap_le _ _, List.length_filter_le _ _, ?_⟩
  · intro p hp
    obtain ⟨pid, hpid, hmeta⟩ := List.mem_filterMap.mp hp
    have := List.of_mem_filter hpid
    rw [hcons pid p hmeta]
    simpa using this
  · intro pid hpid hnone p hp
    obtain ⟨pid', hpid', hmeta⟩ := List.mem_filterMap.mp hp
    rw [hcons pid' p hmeta]
    intro heq
    rw [heq] at hmeta
    rw [hnone] at hmeta
    exact Option.noConfusion hmeta

/-- Witness for C10: the concrete export `storeW` declares 5 photos and
lists four ids (including the spurious `0`), yet the lookup succeeds and
returns a single photo — no error, declared count kept. -/
theorem c10_witness :
    (getAlbumDetails storeW "a1").isOk = true
    ∧ getAlbumDetails storeW "a1"
        = .ok { id := "a1", title := "Album 1", description := "d", photoCount := 5,
                photos := [photoK "1"] } := by
  have hcons : ∀ pid p, storeW.photoMeta pid = some p → p.id = pid := by
    intro pid p hp
    have hp' : (if (pid == "1") = true then some (photoK "1") else none) = some p := hp
    by_cases h : (pid == "1") = true
    · rw [if_pos h] at hp'
      cases hp'
      rw [eq_of_beq h]
      rfl
    · rw [if_neg h] at hp'
      exact Option.noConfusion hp'
  obtain ⟨r, hr, -, -, -, -, -, -⟩ := c10_bulk_export_album storeW "a1"
    { id := "a1", title := "Album 1", description := "d", photo_count := 5,
      photos := ["0", "1", "2", "3"] } (by decide) hcons
  refine ⟨?_, rfl⟩
  rw [hr]
  rfl

/-- C4: under the dry-run flag `transferAlbum` never invokes
`createAlbum`, `uploadPhoto` or `addPhotosToAlbum` (no membership-mutation
request either, and no download), it logs exactly one would-transfer line per
photo of the album (in album order, so the count matches the uploads live
mode would attempt), and each photo contributes the placeholder
`dry_run_<photoId>` to its chunk's result list. -/
theorem c4_dry_run (env : Env) (album : FlickrAlbum) (opts : TransferOptions)
    (hdry : opts.dryRun = true) :
    (∀ t, Event.createAlbumCall t ∉ (transferAlbum env album opts).2)
    ∧ (∀ f ds, Event.uploadCall f ds ∉ (transferAlbum env album opts).2)
    ∧ (∀ pid, Event.downloadCall pid ∉ (transferAlbum env album opts).2)
    ∧ (∀ a ids, Event.addPhotosToAlbumCall a ids ∉ (transferAlbum env album opts).2)
    ∧ (∀ a ids, Event.batchAddCall a ids ∉ (transferAlbum env album opts).2)
    ∧ wouldTransferIds (transferAlbum env album opts).2 = album.photos.map (fun p => p.id)
    ∧ (wouldTransferIds (transferAlbum env album opts).2).length = album.photos.length
    ∧ (∀ chunk : List FlickrPhoto,
        (processPhotoBatch env chunk true).1 = chunk.map (fun p => "dry_run_" ++ p.id)) := by
  obtain ⟨oa, od, ob⟩ := opts
  have hod : od = true := hdry
  subst hod
  have hshape := transferAlbum_dry_shape env album oa ob
  have hwould : wouldTransferIds
      (transferAlbum env album { albumId := oa, dryRun := true, batchSize := ob }).2
      = album.photos.map (fun p => p.id) := by
    rw [transferAlbum_dry env album oa ob]
    show wouldTransferIds (_ ++ _) = _
    unfold wouldTransferIds
    rw [List.filterMap_append, List.filterMap_cons]
    have h2 := chunkLoop_dry_would env (effBatchSize ob) (effBatchSize_pos ob)
      (initialJob env album) 0 album.photos
    unfold wouldTransferIds at h2
    have h2' : ((albumLoop env album { albumId := oa, dryRun := true, batchSize := ob }).2.2).filterMap
        (fun e => match e with | .dryRunWouldTransfer pid => some pid | _ => none)
        = (album.photos.drop 0).map fun p => p.id := h2
    rw [h2', List.drop_zero]
    simp
  refine ⟨?_, ?_, ?_, ?_, ?_, hwould, by rw [hwould, List.length_map], processPhotoBatch_dry_ids env⟩
  · intro t ht
    rcases hshape _ ht with ⟨pid, h⟩ | ⟨j, h⟩ <;> cases h
  · intro f ds ht
    rcases hshape _ ht with ⟨pid, h⟩ | ⟨j, h⟩ <;> cases h
  · intro pid ht
    rcases hshape _ ht with ⟨pid', h⟩ | ⟨j, h⟩ <;> cases h
  · intro a ids ht
    rcases hshape _ ht with ⟨pid, h⟩ | ⟨j, h⟩ <;> cases h
  · intro a ids ht
    rcases hshape _ ht with ⟨pid, h⟩ | ⟨j, h⟩ <;> cases h

/-- Witness for C4: the dry-run transfer of the concrete five-photo album
logs exactly its five photo ids and never calls `createAlbum`. -/
theorem c4_witness :
    wouldTransferIds
        (transferAlbum envOk albumW { albumId := none, dryRun := true, batchSize := 0 }).2
      = photosW.map (fun p => p.id)
    ∧ Event.createAlbumCall "Album 1"
        ∉ (transferAlbum envOk albumW { albumId := none, dryRun := true, batchSize := 0 }).2 :=
  ⟨(c4_dry_run envOk albumW { albumId := none, dryRun := true, batchSize := 0 } rfl).2.2.2.2.2.1,
    (c4_dry_run envOk albumW { albumId := none, dryRun := true, batchSize := 0 } rfl).1 "Album 1"⟩

/-- C8: `DestinationClient.addPhotosToAlbum` is never invoked with an empty
id list — every service-entry membership event carries a non-empty list —
and when the accumulated id list after all chunks is empty the membership
call is skipped entirely (no membership event of either kind appears). -/
theorem c8_empty_skips_membership (env : Env) (album : FlickrAlbum) (opts : TransferOptions) :
    (∀ aid ids, Event.addPhotosToAlbumCall aid ids ∈ (transferAlbum env album opts).2 → ids ≠ [])
    ∧ ((albumLoop env album opts).1 = [] →
        ∀ aid ids, Event.addPhotosToAlbumCall aid ids ∉ (transferAlbum env album opts).2
          ∧ Event.batchAddCall aid ids ∉ (transferAlbum env album opts).2) := by
  obtain ⟨oa, od, ob⟩ := opts
  cases od with
  | true =>
    have habs : ∀ e, e ∈ (transferAlbum env album
        { albumId := oa, dryRun := true, batchSize := ob }).2 →
        (∃ pid, e = .dryRunWouldTransfer pid) ∨ (∃ j, e = .saveJobCall j) :=
      transferAlbum_dry_shape env album oa ob
    constructor
    · intro aid ids hmem
      rcases habs _ hmem with ⟨pid, h⟩ | ⟨j, h⟩ <;> cases h
    · intro _ aid ids
      constructor
      · intro hmem
        rcases habs _ hmem with ⟨pid, h⟩ | ⟨j, h⟩ <;> cases h
      · intro hmem
        rcases habs _ hmem with ⟨pid, h⟩ | ⟨j, h⟩ <;> cases h
  | false =>
    cases hc : env.createAlbumResult album.title with
    | error e =>
      have habs : ∀ e', e' ∈ (transferAlbum env album
          { albumId := oa, dryRun := false, batchSize := ob }).2 →
          e' = .saveJobCall (initialJob env album) ∨ e' = .createAlbumCall album.title
            ∨ e' = .saveJobCall (failJob env (initialJob env album) e) := by
        rw [transferAlbum_createFail env album oa ob e hc]
        intro e' he'
        rcases List.mem_cons.mp he' with rfl | he'
        · exact Or.inl rfl
        · rcases List.mem_cons.mp he' with rfl | he'
          · exact Or.inr (Or.inl rfl)
          · rcases List.mem_singleton.mp he' with rfl
            exact Or.inr (Or.inr rfl)
      constructor
      · intro aid ids hmem
        rcases habs _ hmem with h | h | h <;> cases h
      · intro _ aid ids
        constructor
        · intro hmem
          rcases habs _ hmem with h | h | h <;> cases h
        · intro hmem
          rcases habs _ hmem with h | h | h <;> cases h
    | ok ga =>
      have hshape := transferAlbum_createOk_shape env album oa ob ga hc
      have hloop := chunkLoop_trace_shape env false (effBatchSize ob) (initialJob env album) 0
        album.photos
      have hmembshape := membershipStep_trace_shape env false (some ga)
        (albumLoop env album { albumId := oa, dryRun := false, batchSize := ob }).1
      constructor
      · intro aid ids hmem
        rcases hshape _ hmem with h | h | h | h | ⟨j, h⟩
        · cases h
        · cases h
        · rcases hloop _ h with ⟨pid, h'⟩ | ⟨f, ds, h'⟩ | ⟨pid, h'⟩ | ⟨j, h'⟩ <;> cases h'
        · rcases hmembshape _ h with ⟨a, l, h', hl, hne⟩ | ⟨a, w, h'⟩
          · cases h'
            exact hl ▸ hne
          · cases h'
        · cases h
      · intro hempty aid ids
        have hmembnil : (membershipStep env false (some ga)
            (albumLoop env album { albumId := oa, dryRun := false, batchSize := ob }).1).2 = [] := by
          rw [hempty]
          rfl
        constructor
        · intro hmem
          rcases hshape _ hmem with h | h | h | h | ⟨j, h⟩
          · cases h
          · cases h
          · rcases hloop _ h with ⟨pid, h'⟩ | ⟨f, ds, h'⟩ | ⟨pid, h'⟩ | ⟨j, h'⟩ <;> cases h'
          · rw [hmembnil] at h
            cases h
          · cases h
        · intro hmem
          rcases hshape _ hmem with h | h | h | h | ⟨j, h⟩
          · cases h
          · cases h
          · rcases hloop _ h with ⟨pid, h'⟩ | ⟨f, ds, h'⟩ | ⟨pid, h'⟩ | ⟨j, h'⟩ <;> cases h'
          · rw [hmembnil] at h
            cases h
          · cases h

/-- Witness for C8: for the empty album in live mode the accumulated id list
is empty and no membership event of either kind is emitted. -/
theorem c8_witness :
    Event.addPhotosToAlbumCall "galbum" []
        ∉ (transferAlbum envOk albumE { albumId := none, dryRun := false, batchSize := 0 }).2
      ∧ Event.batchAddCall "galbum" []
        ∉ (transferAlbum envOk albumE { albumId := none, dryRun := false, batchSize := 0 }).2 := by
  have hempty : (albumLoop envOk albumE { albumId := none, dryRun := false, batchSize := 0 }).1
      = [] := by
    show (chunkLoop envOk false (effBatchSize 0) (initialJob envOk albumE) 0 albumE.photos).1 = []
    rw [chunkLoop_eq_neg envOk false (effBatchSize 0) (initialJob envOk albumE) 0 albumE.photos
      (by simp [albumE])]
  exact (c8_empty_skips_membership envOk albumE
    { albumId := none, dryRun := false, batchSize := 0 }).2 hempty "galbum" []

/-- C6: albums are transferred strictly sequentially, and an album whose
transfer rejects aborts the loop — the run's trace is exactly the traces of
the preceding successful albums followed by the failing album's trace, with
nothing from the remaining albums; an exception from destination album
creation or from the final membership call propagates out of
`transferAlbum`, whereas per-photo failures never do (album creation and
window submission succeeding is enough for the album to succeed, whatever
the downloads and uploads return). -/
theorem c6_fail_fast_across_albums (env : Env) (opts : TransferOptions) :
    (∀ (xs ys : List FlickrAlbum) (a : FlickrAlbum) (e : String),
        (∀ x ∈ xs, (transferAlbum env x opts).1 = .ok ()) →
        (transferAlbum env a opts).1 = .error e →
        transferAlbums env (xs ++ a :: ys) opts
          = (.error e, ((xs.map fun x => (transferAlbum env x opts).2).flatten
              ++ (transferAlbum env a opts).2)))
    ∧ (∀ (album : FlickrAlbum) (e : String), opts.dryRun = false →
        env.createAlbumResult album.title = .error e →
        (transferAlbum env album opts).1 = .error e)
    ∧ (∀ (album : FlickrAlbum) (ga : GoogleAlbum) (e : String), opts.dryRun = false →
        env.createAlbumResult album.title = .ok ga →
        (albumLoop env album opts).1 ≠ [] →
        (addPhotosToAlbum env ga.id (albumLoop env album opts).1).1 = .error e →
        (transferAlbum env album opts).1 = .error e)
    ∧ (∀ (album : FlickrAlbum) (ga : GoogleAlbum), opts.dryRun = false →
        env.createAlbumResult album.title = .ok ga →
        (∀ ids, env.batchAddResult ga.id ids = .ok ()) →
        (transferAlbum env album opts).1 = .ok ()) := by
  obtain ⟨oa, od, ob⟩ := opts
  refine ⟨?_, ?_, ?_, ?_⟩
  · intro xs ys a e
    induction xs with
    | nil =>
      intro _ ha
      rw [List.nil_append, transferAlbums_cons_err env a ys _ e ha]
      simp
    | cons x xs' ih =>
      intro hxs ha
      have hx : (transferAlbum env x { albumId := oa, dryRun := od, batchSize := ob }).1
          = .ok () := hxs x (List.mem_cons_self x xs')
      rw [List.cons_append, transferAlbums_cons_ok env x (xs' ++ a :: ys) _ hx,
        ih (fun y hy => hxs y (List.mem_cons_of_mem x hy)) ha]
      simp [List.append_assoc]
  · intro album e hdry hc
    have hod : od = false := hdry
    subst hod
    rw [transferAlbum_createFail env album oa ob e hc]
  · intro album ga e hdry hc hne herr
    have hod : od = false := hdry
    subst hod
    rw [transferAlbum_createOk env album oa ob ga hc]
    have hm : (membershipStep env false (some ga)
        (albumLoop env album { albumId := oa, dryRun := false, batchSize := ob }).1).1
        = .error e := by
      rw [membershipStep_call env ga _ hne]
      exact herr
    rw [hm]
  · intro album ga hdry hc hall
    have hod : od = false := hdry
    subst hod
    rw [transferAlbum_createOk env album oa ob ga hc]
    have hm : (membershipStep env false (some ga)
        (albumLoop env album { albumId := oa, dryRun := false, batchSize := ob }).1).1
        = .ok () := by
      by_cases hids : (albumLoop env album { albumId := oa, dryRun := false, batchSize := ob }).1 = []
      · rw [hids]
        rfl
      · rw [membershipStep_call env ga _ hids]
        show (submitBatches env ga.id _).1 = .ok ()
        exact (submitBatches_ok_iff env ga.id _).mpr fun w _ => hall w
    rw [hm]

/-- Witness for C6: with creation failing exactly for the middle album, the
three-album run aborts at it — the trace is the first album's trace followed
by the failing album's, nothing from the third. -/
theorem c6_witness :
    transferAlbums envC6 [albumE, albumF, albumW]
        { albumId := none, dryRun := false, batchSize := 0 }
      = (.error "create failed",
          (([albumE].map fun x => (transferAlbum envC6 x
              { albumId := none, dryRun := false, batchSize := 0 }).2).flatten
            ++ (transferAlbum envC6 albumF
                { albumId := none, dryRun := false, batchSize := 0 }).2)) := by
  have hok : ∀ x ∈ [albumE], (transferAlbum envC6 x
      { albumId := none, dryRun := false, batchSize := 0 }).1 = .ok () := by
    intro x hx
    rw [List.mem_singleton] at hx
    subst hx
    exact (c6_fail_fast_across_albums envC6
        { albumId := none, dryRun := false, batchSize := 0 }).2.2.2 albumE
      { id := "galbum", title := "Album 2", mediaItemsCount := 0, isWriteable := true }
      rfl rfl (fun ids => rfl)
  have herr : (transferAlbum envC6 albumF
      { albumId := none, dryRun := false, batchSize := 0 }).1 = .error "create failed" :=
    (c6_fail_fast_across_albums envC6
      { albumId := none, dryRun := false, batchSize := 0 }).2.1 albumF "create failed" rfl rfl
  exact (c6_fail_fast_across_albums envC6
    { albumId := none, dryRun := false, batchSize := 0 }).1 [albumE] [albumW] albumF
    "create failed" hok herr

/-- C7: the persisted job follows the lifecycle pending → in-progress →
completed / failed: the first saved record is the pending job with zero
processed, the loop saves one in-progress record per batch carrying
`min(chunkEnd, totalPhotos)` (the `chunkEnds` mirror), the saved progress
counters are monotonically non-decreasing, a successful run ends with the
completed record (end time set) and a rejected album creation or membership
call ends with the failed record carrying the error message and an end time. -/
theorem c7_job_lifecycle (env : Env) (album : FlickrAlbum) (opts : TransferOptions) :
    (savedJobs (transferAlbum env album opts).2).head? = some (initialJob env album)
    ∧ (initialJob env album).status = .pending
    ∧ (initialJob env album).processedPhotos = 0
    ∧ savedJobs (albumLoop env album opts).2.2
        = (chunkEnds (effBatchSize opts.batchSize) album.photos.length 0).map
            (fun m => { initialJob env album with
                processedPhotos := m, status := JobStatus.in_progress })
    ∧ List.Chain' (fun a b => a.processedPhotos ≤ b.processedPhotos)
        (savedJobs (transferAlbum env album opts).2)
    ∧ ((transferAlbum env album opts).1 = .ok () →
        savedJobs (transferAlbum env album opts).2
          = initialJob env album :: savedJobs (albumLoop env album opts).2.2
              ++ [completeJob env (albumLoop env album opts).2.1])
    ∧ (∀ e, (transferAlbum env album opts).1 = .error e →
        savedJobs (transferAlbum env album opts).2
            = [initialJob env album, failJob env (initialJob env album) e]
          ∨ savedJobs (transferAlbum env album opts).2
            = initialJob env album :: savedJobs (albumLoop env album opts).2.2
                ++ [failJob env (albumLoop env album opts).2.1 e])
    ∧ (∀ j, (completeJob env j).status = .completed ∧ (completeJob env j).endTime = some env.now)
    ∧ (∀ j e, (failJob env j e).status = .failed ∧ (failJob env j e).error = some e
        ∧ (failJob env j e).endTime = some env.now) := by
  obtain ⟨oa, od, ob⟩ := opts
  have hsaved : savedJobs (albumLoop env album { albumId := oa, dryRun := od, batchSize := ob }).2.2
      = (chunkEnds (effBatchSize ob) album.photos.length 0).map
          (fun m => { initialJob env album with
              processedPhotos := m, status := JobStatus.in_progress }) :=
    chunkLoop_saved env od (effBatchSize ob) (initialJob env album) 0 album.photos
  have hfinalp : ∀ t : TransferJob,
      t.processedPhotos
          = (albumLoop env album { albumId := oa, dryRun := od, batchSize := ob }).2.1.processedPhotos →
      t.processedPhotos = if 0 < album.photos.length ∧ 0 < effBatchSize ob
        then album.photos.length else (initialJob env album).processedPhotos := by
    intro t ht
    rw [ht]
    show (chunkLoop env od (effBatchSize ob) (initialJob env album) 0 album.photos).2.1.processedPhotos = _
    rw [chunkLoop_final]
    by_cases h : 0 < album.photos.length ∧ 0 < effBatchSize ob
    · rw [if_pos h, if_pos h]
    · rw [if_neg h, if_neg h]
  have hcase := transferAlbum_saved_cases env album oa od ob
  refine ⟨?_, rfl, rfl, hsaved, ?_, ?_, ?_, fun j => ⟨rfl, rfl⟩, fun j e => ⟨rfl, rfl, rfl⟩⟩
  · rcases hcase with ⟨_, hsj⟩ | ⟨e, _, hsj | hsj⟩ <;> rw [hsj] <;> rfl
  · rcases hcase with ⟨_, hsj⟩ | ⟨e, _, hsj | hsj⟩ <;> rw [hsj]
    · rw [hsaved]
      exact saved_chain (initialJob env album) (effBatchSize ob) album.photos.length rfl
        _ (hfinalp _ rfl)
    · exact List.chain'_pair.mpr (Nat.le_refl _)
    · rw [hsaved]
      exact saved_chain (initialJob env album) (effBatchSize ob) album.photos.length rfl
        _ (hfinalp _ rfl)
  · intro hok
    rcases hcase with ⟨_, hsj⟩ | ⟨e, herr, _⟩
    · exact hsj
    · rw [hok] at herr
      cases herr
  · intro e' he'
    rcases hcase with ⟨hok, _⟩ | ⟨e, herr, hdisj⟩
    · rw [hok] at he'
      cases he'
    · rw [herr] at he'
      injection he' with h
      subst h
      exact hdisj

/-- Witness for C7: the live transfer of the empty album under `envOk`
succeeds, and its saved records are exactly the pending record followed by
the completed record. -/
theorem c7_witness :
    (savedJobs (transferAlbum envOk albumE
        { albumId := none, dryRun := false, batchSize := 0 }).2).head?
      = some (initialJob envOk albumE)
    ∧ savedJobs (transferAlbum envOk albumE
          { albumId := none, dryRun := false, batchSize := 0 }).2
        = initialJob envOk albumE
            :: savedJobs (albumLoop envOk albumE
                { albumId := none, dryRun := false, batchSize := 0 }).2.2
            ++ [completeJob envOk (albumLoop envOk albumE
                { albumId := none, dryRun := false, batchSize := 0 }).2.1] := by
  have hids : (albumLoop envOk albumE { albumId := none, dryRun := false, batchSize := 0 }).1
      = [] := by
    show (chunkLoop envOk false (effBatchSize 0) (initialJob envOk albumE) 0 albumE.photos).1 = []
    rw [chunkLoop_eq_neg envOk false (effBatchSize 0) (initialJob envOk albumE) 0 albumE.photos
      (by simp [albumE])]
  have hm : (membershipStep envOk false
      (some { id := "galbum", title := "Album 2", mediaItemsCount := 0, isWriteable := true })
      (albumLoop envOk albumE { albumId := none, dryRun := false, batchSize := 0 }).1).1
      = .ok () := by
    rw [hids]
    rfl
  have hok : (transferAlbum envOk albumE
      { albumId := none, dryRun := false, batchSize := 0 }).1 = .ok () := by
    rw [transferAlbum_createOk envOk albumE none 0
      { id := "galbum", title := "Album 2", mediaItemsCount := 0, isWriteable := true } rfl, hm]
  exact ⟨(c7_job_lifecycle envOk albumE { albumId := none, dryRun := false, batchSize := 0 }).1,
    (c7_job_lifecycle envOk albumE
      { albumId := none, dryRun := false, batchSize := 0 }).2.2.2.2.2.1 hok⟩

end FlickrToGoogle
